import Mathlib

/-!
Verification development for the ext-prof extension runtime profiler.

The definitions below are a shallow embedding of the TypeScript sources:
  - extensions/ext-prof-spike/collector.ts   (aggregate collector)
  - wrapper.ts                               (timing wrapper, callTimed)
  - extensions/ext-prof-spike/patcher.ts     (runtime patcher)
  - extensions/ext-prof-spike/persistence.ts (snapshot writer)

JavaScript Map objects (insertion ordered, first-match lookup) are embedded
as association lists built only through setA.  JavaScript numbers used for
durations are embedded as rationals.  Mutable shared state (the collector,
the clock, the file system) is passed explicitly.
-/

set_option autoImplicit false

namespace ExtProf

/-! ## Association lists modelling JavaScript Map -/

/-- Lookup of the first binding of a key, as Map.get. -/
def lookupA {A : Type} (m : List (String × A)) (k : String) : Option A :=
  match m with
  | [] => none
  | (k', v) :: rest => if k' = k then some v else lookupA rest k

/-- Update the first binding in place, else append, as Map.set
(insertion order is preserved). -/
def setA {A : Type} (m : List (String × A)) (k : String) (v : A) : List (String × A) :=
  match m with
  | [] => [(k, v)]
  | (k', v') :: rest => if k' = k then (k, v) :: rest else (k', v') :: setA rest k v

/-! ## collector.ts -/

/-- Surface, the union type "event" | "command" | "tool". -/
inductive Surface where
  | event
  | command
  | tool
deriving DecidableEq, Repr

/-- Rendering of a Surface value as its source string literal. -/
def Surface.str : Surface → String
  | .event => "event"
  | .command => "command"
  | .tool => "tool"

/-- Aggregate row, collector.ts lines 3-8. -/
structure Aggregate where
  calls : Nat
  totalMs : ℚ
  maxMs : ℚ
  errorCount : Nat
deriving DecidableEq, Repr

/-- HandlerAggregate: Aggregate plus the three stored key components,
collector.ts lines 10-14. -/
structure HandlerAggregate where
  extensionPath : String
  surface : Surface
  name : String
  calls : Nat
  totalMs : ℚ
  maxMs : ℚ
  errorCount : Nat
deriving DecidableEq, Repr

/-- Collector state, collector.ts lines 16-23. -/
structure Collector where
  maxHandlers : Nat
  unknownExtensionKey : String
  extensionTotals : List (String × Aggregate)
  handlerTotals : List (String × HandlerAggregate)
  droppedNewKeys : Nat
  warnedCardinality : Bool
deriving DecidableEq, Repr

/-- createCollector, collector.ts lines 25-34; the optional
unknownExtensionKey argument defaults to the sentinel. -/
def createCollector (maxHandlers : Nat) (unknownExtensionKey : Option String) : Collector :=
  { maxHandlers := maxHandlers
    unknownExtensionKey := unknownExtensionKey.getD "<unknown-extension>"
    extensionTotals := []
    handlerTotals := []
    droppedNewKeys := 0
    warnedCardinality := false }

/-- The key separator U+001F used by keyOf. -/
def usep : String := String.mk [Char.ofNat 31]

/-- keyOf, collector.ts lines 36-37. -/
def keyOf (extensionPath : String) (surface : Surface) (name : String) : String :=
  extensionPath ++ usep ++ surface.str ++ usep ++ name

/-- Sample argument of recordInvocation; extensionPath may be undefined. -/
structure Sample where
  extensionPath : Option String
  surface : Surface
  name : String
  ms : ℚ
  ok : Bool
deriving DecidableEq, Repr

/-- The conditional expression on collector.ts line 53: a missing or
blank-after-trim extension path falls back to the sentinel key (the
original untrimmed string is kept otherwise).  The trim() result is the
empty string exactly when every character is whitespace, which is how the
condition is embedded. -/
def normalizeExtensionPath (c : Collector) (p : Option String) : String :=
  match p with
  | none => c.unknownExtensionKey
  | some s => if s.data.all Char.isWhitespace then c.unknownExtensionKey else s

/-- upsertAggregate, collector.ts lines 39-47 (the row returned by the
source is ignored by its only caller, so the embedding returns the map). -/
def upsertAggregate (target : List (String × Aggregate)) (key : String) (ms : ℚ) (ok : Bool) :
    List (String × Aggregate) :=
  let row := (lookupA target key).getD { calls := 0, totalMs := 0, maxMs := 0, errorCount := 0 }
  let row' : Aggregate :=
    { calls := row.calls + 1
      totalMs := row.totalMs + ms
      maxMs := max row.maxMs ms
      errorCount := if ok then row.errorCount else row.errorCount + 1 }
  setA target key row'

/-- recordInvocation, collector.ts lines 49-78. -/
def recordInvocation (c : Collector) (s : Sample) : Collector :=
  let extensionPath := normalizeExtensionPath c s.extensionPath
  let handlerKey := keyOf extensionPath s.surface s.name
  if (lookupA c.handlerTotals handlerKey).isNone ∧ c.handlerTotals.length ≥ c.maxHandlers then
    { c with droppedNewKeys := c.droppedNewKeys + 1 }
  else
    let extensionTotals := upsertAggregate c.extensionTotals extensionPath s.ms s.ok
    let row := (lookupA c.handlerTotals handlerKey).getD
      { extensionPath := extensionPath, surface := s.surface, name := s.name
        calls := 0, totalMs := 0, maxMs := 0, errorCount := 0 }
    let row' : HandlerAggregate :=
      { row with
        calls := row.calls + 1
        totalMs := row.totalMs + s.ms
        maxMs := max row.maxMs s.ms
        errorCount := if s.ok then row.errorCount else row.errorCount + 1 }
    { c with
      extensionTotals := extensionTotals
      handlerTotals := setA c.handlerTotals handlerKey row' }

/-- resetCollector, collector.ts lines 90-95. -/
def resetCollector (c : Collector) : Collector :=
  { c with
    extensionTotals := []
    handlerTotals := []
    droppedNewKeys := 0
    warnedCardinality := false }

/-! ## wrapper.ts

The world state of type sigma carries everything outside the collector that
a callable may touch (in particular the clock); a stateful now() source is a
function from the world to a rational timestamp and a new world.  A call in
the host runtime either returns a plain value synchronously, throws
synchronously, or returns a promise that later settles; awaiting inside an
async function collapses all three into settlement. -/

/-- Stateful clock: the type of the injectable now() sources. -/
def Clock (σ : Type) : Type := σ → ℚ × σ

/-- What invoking a callable returns, before awaiting. -/
inductive JsOutcome (ε α : Type) where
  | sync (v : α)
  | syncThrow (e : ε)
  | promise (p : Except ε α)

/-- Semantics of await inside an async function body: a plain value passes
through, a synchronous throw rejects, a promise yields its settlement. -/
def awaitOutcome {ε α : Type} : JsOutcome ε α → Except ε α
  | .sync v => .ok v
  | .syncThrow e => .error e
  | .promise p => p

/-- Boolean success of a settled result. -/
def settledOk {ε α : Type} : Except ε α → Bool
  | .ok _ => true
  | .error _ => false

/-- A JavaScript callable as the wrapper sees it: its behavior (threading
the shared collector and the world explicitly, receiving the this binding
and the argument list), plus the non-enumerable WRAPPED marker property.
wrapper.ts lines 997-1000. -/
structure JsFun (θ υ σ ε α : Type) where
  run : θ → List υ → Collector → σ → JsOutcome ε α × Collector × σ
  wrappedMarker : Bool

/-- isWrapped, wrapper.ts lines 1002-1004. -/
def isWrapped {θ υ σ ε α : Type} (f : JsFun θ υ σ ε α) : Bool :=
  f.wrappedMarker

/-- Argument record of callTimed, wrapper.ts lines 1006-1014.  The source
also carries the collector here; the embedding threads the collector as
explicit state instead, since it is the shared mutable store. -/
structure TimedArgs (θ υ σ ε α : Type) where
  extensionPath : String
  surface : Surface
  name : String
  now : Option (Clock σ)
  fn : θ → List υ → Collector → σ → JsOutcome ε α × Collector × σ
  thisArg : θ
  callArgs : List υ

/-- callTimed, wrapper.ts lines 1006-1034: resolve the clock (defaulting to
performance.now, here the ambient perfNow), take the start stamp, apply and
await the original callable, and in the cleanup block that runs on success
and failure alike take the stop stamp, floor the elapsed time at zero and
record the sample; the settled result or error is passed through. -/
def callTimed {θ υ σ ε α : Type} (perfNow : Clock σ) (a : TimedArgs θ υ σ ε α)
    (c : Collector) (s : σ) : Except ε α × Collector × σ :=
  let now := a.now.getD perfNow
  let (start, s1) := now s
  let (outcome, c1, s2) := a.fn a.thisArg a.callArgs c s1
  let settled := awaitOutcome outcome
  let (stop, s3) := now s2
  let ms := max 0 (stop - start)
  let c2 := recordInvocation c1
    { extensionPath := some a.extensionPath, surface := a.surface, name := a.name
      ms := ms, ok := settledOk settled }
  (settled, c2, s3)

/-- Configuration record of wrapWithTiming, wrapper.ts lines 1036-1043.
Note that wrapper.ts declares no shouldRecord parameter on any of its
argument records. -/
structure WrapArgs (σ : Type) where
  extensionPath : String
  surface : Surface
  name : String
  now : Option (Clock σ)

/-- wrapWithTiming, wrapper.ts lines 1036-1061: an already wrapped handler
is returned unchanged; otherwise the returned wrappedCall is an async
function (its invocation always produces a promise) carrying the WRAPPED
marker. -/
def wrapWithTiming {θ υ σ ε α : Type} (perfNow : Clock σ) (cfg : WrapArgs σ)
    (handler : JsFun θ υ σ ε α) : JsFun θ υ σ ε α :=
  if isWrapped handler then handler
  else
    { run := fun thisArg callArgs c s =>
        let (settled, c1, s1) := callTimed perfNow
          { extensionPath := cfg.extensionPath, surface := cfg.surface, name := cfg.name
            now := cfg.now, fn := handler.run, thisArg := thisArg, callArgs := callArgs } c s
        (JsOutcome.promise settled, c1, s1)
      wrappedMarker := true }

/-- wrapEventHandler, wrapper.ts lines 1063-1078. -/
def wrapEventHandler {θ υ σ ε α : Type} (perfNow : Clock σ) (extensionPath eventType : String)
    (now : Option (Clock σ)) (handler : JsFun θ υ σ ε α) : JsFun θ υ σ ε α :=
  wrapWithTiming perfNow
    { extensionPath := extensionPath, surface := .event, name := eventType, now := now } handler

/-- wrapCommandHandler, wrapper.ts lines 1080-1095. -/
def wrapCommandHandler {θ υ σ ε α : Type} (perfNow : Clock σ) (extensionPath commandName : String)
    (now : Option (Clock σ)) (handler : JsFun θ υ σ ε α) : JsFun θ υ σ ε α :=
  wrapWithTiming perfNow
    { extensionPath := extensionPath, surface := .command, name := commandName, now := now } handler

/-- wrapToolExecute, wrapper.ts lines 1097-1112. -/
def wrapToolExecute {θ υ σ ε α : Type} (perfNow : Clock σ) (extensionPath toolName : String)
    (now : Option (Clock σ)) (handler : JsFun θ υ σ ε α) : JsFun θ υ σ ε α :=
  wrapWithTiming perfNow
    { extensionPath := extensionPath, surface := .tool, name := toolName, now := now } handler

/-! ## patcher.ts -/

/-- Coverage, the union type "instrumented" | "missing". -/
inductive Coverage where
  | instrumented
  | missing
deriving DecidableEq, Repr

/-- CoverageState, patcher.ts lines 7-11. -/
structure CoverageState where
  events : Coverage
  commands : Coverage
  tools : Coverage
deriving DecidableEq, Repr

/-- The all-missing coverage literal used throughout patcher.ts. -/
def CoverageState.allMissing : CoverageState :=
  { events := .missing, commands := .missing, tools := .missing }

/-- PatchStatus, patcher.ts lines 13-17. -/
structure PatchStatus where
  patched : Bool
  reason : String
  coverage : CoverageState
deriving DecidableEq, Repr

/-- ExtensionLike, patcher.ts lines 23-28: per-extension collections, each
an Option since the source probes each one with instanceof Map (a missing
or structurally unrecognized collection is none).  The command handler and
the tool definition execute member are modelled by the callable itself. -/
structure Ext (θ υ σ ε α : Type) where
  path : Option String
  handlers : Option (List (String × List (JsFun θ υ σ ε α)))
  commands : Option (List (String × JsFun θ υ σ ε α))
  tools : Option (List (String × JsFun θ υ σ ε α))

/-- RunnerLike, patcher.ts lines 19-21 (an absent extensions array is
modelled as the empty list, matching the source fallback to []). -/
structure Runner (θ υ σ ε α : Type) where
  extensions : List (Ext θ υ σ ε α)

/-- The per-extension wrapping performed inside patchedBindCore,
patcher.ts lines 65-110: every contained callable of each present
collection is wrapped (the source also forwards shouldRecord at each of
these call sites, but wrapper.ts declares no such parameter, so the
property is dropped before reaching the wrapped callables; the embedding
mirrors that by not passing it on). -/
def wrapExtension {θ υ σ ε α : Type} (perfNow : Clock σ) (e : Ext θ υ σ ε α) :
    Ext θ υ σ ε α :=
  let extensionPath := e.path.getD "<unknown-extension>"
  { path := e.path
    handlers := e.handlers.map (List.map fun p =>
      (p.1, p.2.map fun handler => wrapEventHandler perfNow extensionPath p.1 none handler))
    commands := e.commands.map (List.map fun p =>
      (p.1, wrapCommandHandler perfNow extensionPath p.1 none p.2))
    tools := e.tools.map (List.map fun p =>
      (p.1, wrapToolExecute perfNow extensionPath p.1 none p.2)) }

/-- The nextCoverage computation of patchedBindCore, patcher.ts lines
59-111: starting from all missing, each extension whose collection is a
Map (present, of any size) switches that surface to instrumented. -/
def coverageAfter {θ υ σ ε α : Type} (exts : List (Ext θ υ σ ε α)) : CoverageState :=
  exts.foldl
    (fun cov e =>
      { events := if e.handlers.isSome then .instrumented else cov.events
        commands := if e.commands.isSome then .instrumented else cov.commands
        tools := if e.tools.isSome then .instrumented else cov.tools })
    CoverageState.allMissing

/-- The type of bindCore as the patcher sees it: an effect on the runner
instance, threading the coverage cell that the patch closure mutates (the
original bindCore leaves that cell alone) and returning a result value. -/
def BindFn (θ υ σ ε α ρ : Type) : Type :=
  Runner θ υ σ ε α → CoverageState → Runner θ υ σ ε α × CoverageState × ρ

/-- patchedBindCore, patcher.ts lines 56-118: call the original bindCore
unmodified, then walk the now-populated extensions, wrap every callable of
every present collection, store the freshly computed coverage into the
closure coverage cell, and return the original result. -/
def patchedBindCore {θ υ σ ε α ρ : Type} (perfNow : Clock σ)
    (original : BindFn θ υ σ ε α ρ) : BindFn θ υ σ ε α ρ :=
  fun this cov =>
    let (r1, _, result) := original this cov
    ({ extensions := r1.extensions.map (wrapExtension perfNow) },
     coverageAfter r1.extensions,
     result)

/-- The runner prototype as the patcher sees it: the PATCHED symbol marker
property and the current bindCore member. -/
structure ProtoState (θ υ σ ε α ρ : Type) where
  patchedMark : Bool
  bindCore : BindFn θ υ σ ε α ρ

/-- patchRunnerPrototype, patcher.ts lines 30-127.  The source closes the
patch over its collector; the embedding threads the collector at call time.
shouldRecord is accepted and forwarded by the source into each wrap call
site, where wrapper.ts silently drops it (see wrapExtension).  On the first
call the returned coverage is the closure cell, all missing until the
patched bindCore first runs. -/
def patchRunnerPrototype {θ υ σ ε α ρ : Type} (perfNow : Clock σ)
    (p : ProtoState θ υ σ ε α ρ) (shouldRecord : Option (Unit → Bool)) :
    ProtoState θ υ σ ε α ρ × PatchStatus :=
  if p.patchedMark then
    (p, { patched := false, reason := "already patched", coverage := CoverageState.allMissing })
  else
    ({ patchedMark := true, bindCore := patchedBindCore perfNow p.bindCore },
     { patched := true, reason := "patched", coverage := CoverageState.allMissing })

/-! ## Observing handler call counts through a patched prototype -/

/-- Invoke each callable of a list once, in order, threading collector and
world; results are discarded, only the recording side effects remain. -/
def invokeFns {θ υ σ ε α : Type} (fns : List (JsFun θ υ σ ε α)) (thisArg : θ)
    (callArgs : List υ) (cs : Collector × σ) : Collector × σ :=
  fns.foldl
    (fun acc f =>
      let (_, c', s') := f.run thisArg callArgs acc.1 acc.2
      (c', s'))
    cs

/-- All callables registered on one extension, in collection order. -/
def extFns {θ υ σ ε α : Type} (e : Ext θ υ σ ε α) : List (JsFun θ υ σ ε α) :=
  ((e.handlers.getD []).map Prod.snd).flatten
    ++ (e.commands.getD []).map Prod.snd
    ++ (e.tools.getD []).map Prod.snd

/-- Run bindCore through the prototype, then invoke every registered
handler once; returns the resulting collector. -/
def countsAfterBind {θ υ σ ε α ρ : Type} (p : ProtoState θ υ σ ε α ρ)
    (r : Runner θ υ σ ε α) (cov : CoverageState) (thisArg : θ) (callArgs : List υ)
    (c : Collector) (s : σ) : Collector :=
  let (r', _, _) := p.bindCore r cov
  (invokeFns ((r'.extensions.map extFns).flatten) thisArg callArgs (c, s)).1

/-! ## persistence.ts

The JSON values the profiler serializes are at most one object deep (the
session meta carries the flat coverage object, aggregate rows are flat), so
the embedding models JSON values at that depth.  Numbers are embedded as
integers: the exact decimal rendering JSON.stringify gives arbitrary
floating point numbers is outside the embedding, and every number the
profiler writes in the pinned scenarios is integral. -/

/-- Decimal digit character, offset into the ASCII digits. -/
def digitChar (n : Nat) : Char := Char.ofNat (48 + n % 10)

/-- Decimal digits of a natural number, most significant first. -/
def natDigits (n : Nat) : List Char :=
  if h : n < 10 then [digitChar n]
  else natDigits (n / 10) ++ [digitChar (n % 10)]
decreasing_by exact Nat.div_lt_self (by omega) (by omega)

/-- Decimal rendering of a natural number. -/
def natRepr (n : Nat) : String := String.mk (natDigits n)

/-- Decimal rendering of an integer, as JSON.stringify renders integral
numbers. -/
def intRepr (i : Int) : String :=
  if i < 0 then "-" ++ natRepr i.natAbs else natRepr i.natAbs

/-- Lowercase hexadecimal digit character. -/
def hexDigit (n : Nat) : Char :=
  if n % 16 < 10 then Char.ofNat (48 + n % 16) else Char.ofNat (87 + n % 16)

/-- Four-digit lowercase hexadecimal rendering, as in a \u escape. -/
def hex4 (n : Nat) : List Char :=
  [hexDigit (n / 4096), hexDigit (n / 256), hexDigit (n / 16), hexDigit n]

/-- The escaping JSON.stringify applies inside a string literal: quote and
backslash are backslash-escaped, the named control escapes are used for
backspace, tab, newline, form feed and carriage return, any other control
character gets a \u escape, and every other character passes through. -/
def escapeChar (c : Char) : List Char :=
  if c = Char.ofNat 34 then [Char.ofNat 92, Char.ofNat 34]
  else if c = Char.ofNat 92 then [Char.ofNat 92, Char.ofNat 92]
  else if c = Char.ofNat 8 then [Char.ofNat 92, 'b']
  else if c = Char.ofNat 9 then [Char.ofNat 92, 't']
  else if c = Char.ofNat 10 then [Char.ofNat 92, 'n']
  else if c = Char.ofNat 12 then [Char.ofNat 92, 'f']
  else if c = Char.ofNat 13 then [Char.ofNat 92, 'r']
  else if c.toNat < 32 then Char.ofNat 92 :: 'u' :: hex4 c.toNat
  else [c]

/-- A JSON string literal: quoted, with every character escaped. -/
def quoteStr (s : String) : String :=
  String.mk (Char.ofNat 34 :: (s.data.map escapeChar).flatten ++ [Char.ofNat 34])

/-- Primitive JSON values appearing inside the snapshot records. -/
inductive JPrim where
  | null
  | jbool (b : Bool)
  | num (i : Int)
  | str (s : String)
deriving DecidableEq, Repr

/-- JSON values of the snapshot records: a primitive or a flat object
(the coverage sub-object of the session meta). -/
inductive JVal where
  | prim (p : JPrim)
  | obj (fields : List (String × JPrim))
deriving DecidableEq, Repr

/-- Rendering of a primitive JSON value. -/
def JPrim.repr : JPrim → String
  | .null => "null"
  | .jbool true => "true"
  | .jbool false => "false"
  | .num i => intRepr i
  | .str s => quoteStr s

/-- Array.prototype.join with a separator string (also used to model the
comma joins inside JSON.stringify). -/
def joinWith (sep : String) : List String → String
  | [] => ""
  | [x] => x
  | x :: xs => x ++ sep ++ joinWith sep xs

/-- Rendering of a JSON value. -/
def JVal.repr : JVal → String
  | .prim p => p.repr
  | .obj fields =>
    "\x7b" ++ joinWith ","
      (fields.map fun kv => quoteStr kv.1 ++ ":" ++ kv.2.repr) ++ "\x7d"

/-- Rendering of one snapshot record (a top-level JSON object). -/
def recordRepr (fields : List (String × JVal)) : String :=
  "\x7b" ++ joinWith "," (fields.map fun kv => quoteStr kv.1 ++ ":" ++ kv.2.repr) ++ "\x7d"

/-- JavaScript object-literal key semantics for the spread in
persistence.ts lines 13-14: a repeated key keeps its first position and
takes its last value. -/
def upsertField (fields : List (String × JVal)) (k : String) (v : JVal) :
    List (String × JVal) :=
  match fields with
  | [] => [(k, v)]
  | (k', v') :: rest => if k' = k then (k, v) :: rest else (k', v') :: upsertField rest k v

/-- The field list of a JavaScript object literal built from the given
bindings in order. -/
def objOf (l : List (String × JVal)) : List (String × JVal) :=
  l.foldl (fun acc kv => upsertField acc kv.1 kv.2) []

/-- One tagged record: the object literal with the type tag first and the
supplied fields spread after it. -/
def mkRecord (tag : String) (row : List (String × JVal)) : List (String × JVal) :=
  objOf (("type", JVal.prim (JPrim.str tag)) :: row)

/-- The ordered record sequence of a snapshot: the session_meta record
followed by one aggregate record per input row. -/
def snapshotRecords (sessionMeta : List (String × JVal))
    (aggregates : List (List (String × JVal))) : List (List (String × JVal)) :=
  mkRecord "session_meta" sessionMeta :: aggregates.map (mkRecord "aggregate")

/-- A file system state: known directories and file contents by path. -/
structure FsState where
  dirs : List String
  files : String → Option String

/-- Write a file at a path. -/
def writeFileF (fs : FsState) (p content : String) : FsState :=
  { fs with files := fun q => if q = p then some content else fs.files q }

/-- Rename a file from one path to another (the destination is
overwritten, the source entry disappears). -/
def renameF (fs : FsState) (src dst : String) : FsState :=
  { fs with
    files := fun q =>
      if q = dst then fs.files src else if q = src then none else fs.files q }

/-- path.dirname restricted to slash-separated paths (only its value as a
created directory matters here). -/
def dirname (p : String) : String :=
  let parts := p.splitOn "/"
  if parts.length ≤ 1 then "." else String.intercalate "/" parts.dropLast

/-- saveSnapshot, persistence.ts lines 4-19: ensure the parent directory,
render one JSON object per line, write the joined lines with a trailing
newline to the pid-suffixed temporary sibling path, then rename the
temporary file onto the final path. -/
def saveSnapshot (fs : FsState) (pid : Nat) (outputPath : String)
    (sessionMeta : List (String × JVal)) (aggregates : List (List (String × JVal))) :
    FsState :=
  let fs1 : FsState := { fs with dirs := dirname outputPath :: fs.dirs }
  let tmp := outputPath ++ ".tmp-" ++ natRepr pid
  let lines := (snapshotRecords sessionMeta aggregates).map recordRepr
  let content := joinWith "\n" lines ++ "\n"
  renameF (writeFileF fs1 tmp content) tmp outputPath

/-- Reading the saved file back line by line: split the character stream at
every newline. -/
def splitNL : List Char → List (List Char)
  | [] => [[]]
  | c :: rest =>
    match splitNL rest with
    | [] => [[]]
    | g :: gs => if c = '\n' then [] :: g :: gs else (c :: g) :: gs

/-! ## Association list lemmas -/

theorem lookupA_setA_self {A : Type} (m : List (String × A)) (k : String) (v : A) :
    lookupA (setA m k v) k = some v := by
  induction m with
  | nil => simp [setA, lookupA]
  | cons kv rest ih =>
    obtain ⟨k', v'⟩ := kv
    by_cases h : k' = k <;> simp [setA, lookupA, h, ih]

theorem lookupA_setA_ne {A : Type} (m : List (String × A)) (k k' : String) (v : A)
    (h : k' ≠ k) : lookupA (setA m k v) k' = lookupA m k' := by
  have h' : ¬k = k' := fun he => h he.symm
  induction m with
  | nil => simp [setA, lookupA, h']
  | cons kv rest ih =>
    obtain ⟨k0, v0⟩ := kv
    by_cases h0 : k0 = k
    · subst h0
      simp [setA, lookupA, h']
    · simp only [setA, if_neg h0, lookupA]
      by_cases h1 : k0 = k' <;> simp [h1, ih]

/-! ## Concrete fixtures used by the evaluation theorems -/

/-- The injectable test clock: the next tick is popped from the world list,
35 once the list is exhausted (wrapper.test.ts lines 8-9). -/
def tickClock : Clock (List ℚ) := fun s => (s.headD 35, s.tail)

/-- A callable that immediately returns a pending promise resolved later
with value 0; its settlement consumes no ticks. -/
def pendingFn : Unit → List Unit → Collector → List ℚ → JsOutcome String Nat × Collector × List ℚ :=
  fun _ _ c s => (JsOutcome.promise (Except.ok 0), c, s)

/-- The callTimed argument record of the async-duration scenario. -/
def c3Args : TimedArgs Unit Unit (List ℚ) String Nat :=
  { extensionPath := "slow-a.ts", surface := .event, name := "turn_start"
    now := some tickClock, fn := pendingFn, thisArg := (), callArgs := [] }

/-! ## C3: duration spans to settlement -/

/-- C3: for every wrapped callable and injected clock, callTimed takes the
start stamp at call entry, the stop stamp only after the awaited result of
the callable has settled, records through recordInvocation with duration
max 0 (stop - start) on the success and the failure path alike, and passes
the settlement through; concretely, clock ticks 10 and 35 around a callable
returning a pending promise yield a recorded duration of 25. -/
theorem callTimed_spans_settlement :
    (∀ (θ υ σ ε α : Type) (perfNow : Clock σ) (a : TimedArgs θ υ σ ε α) (c : Collector) (s : σ)
      (t1 : ℚ) (s1 : σ) (outcome : JsOutcome ε α) (c1 : Collector) (s2 : σ) (t2 : ℚ) (s3 : σ),
      a.now.getD perfNow s = (t1, s1) →
      a.fn a.thisArg a.callArgs c s1 = (outcome, c1, s2) →
      a.now.getD perfNow s2 = (t2, s3) →
      callTimed perfNow a c s =
        (awaitOutcome outcome,
         recordInvocation c1
           { extensionPath := some a.extensionPath, surface := a.surface, name := a.name
             ms := max 0 (t2 - t1), ok := settledOk (awaitOutcome outcome) },
         s3))
    ∧ lookupA ((callTimed tickClock c3Args (createCollector 10000 none) [10, 35]).2.1).handlerTotals
        (keyOf "slow-a.ts" Surface.event "turn_start")
      = some { extensionPath := "slow-a.ts", surface := .event, name := "turn_start"
               calls := 1, totalMs := 25, maxMs := 25, errorCount := 0 } := by
  constructor
  · intro θ υ σ ε α perfNow a c s t1 s1 outcome c1 s2 t2 s3 h1 h2 h3
    simp only [callTimed, h1, h2, h3]
  · norm_num +decide [callTimed, c3Args, tickClock, pendingFn, recordInvocation,
      normalizeExtensionPath, keyOf, usep, upsertAggregate, lookupA, setA, awaitOutcome,
      settledOk, createCollector, Surface.str]

/-- Witness for C3: the general clause applied to the concrete async
scenario reproduces the full callTimed result. -/
theorem callTimed_spans_settlement_witness :
    callTimed tickClock c3Args (createCollector 10000 none) [10, 35] =
      (Except.ok 0,
       recordInvocation (createCollector 10000 none)
         { extensionPath := some "slow-a.ts", surface := .event, name := "turn_start"
           ms := max 0 (35 - 10), ok := true },
       []) :=
  callTimed_spans_settlement.1 Unit Unit (List ℚ) String Nat tickClock c3Args
    (createCollector 10000 none) [10, 35] 10 [35] (JsOutcome.promise (Except.ok 0))
    (createCollector 10000 none) [35] 35 [] rfl rfl rfl

/-! ## C7: idempotent wrapping -/

/-- C7: wrapping an already wrapped callable (one carrying the WRAPPED
marker) returns the identical callable rather than a new wrapper, for any
wrap configurations, so wrap (wrap f) = wrap f. -/
theorem wrapWithTiming_idempotent {θ υ σ ε α : Type} (perfNow : Clock σ)
    (cfg cfg' : WrapArgs σ) (f : JsFun θ υ σ ε α) :
    wrapWithTiming perfNow cfg' (wrapWithTiming perfNow cfg f) = wrapWithTiming perfNow cfg f := by
  by_cases hm : f.wrappedMarker <;> simp [wrapWithTiming, isWrapped, hm]

/-! ## C10: wrapping always defers the result -/

/-- C10: invoking the wrapper of a not-yet-wrapped callable always returns
a promise, even when the original returns synchronously; the synchronous
return value v is passed through as the settlement of that promise, which
is a different shape of return value than the raw v the original produced. -/
theorem wrapped_call_returns_promise {θ υ σ ε α : Type} (perfNow : Clock σ) (cfg : WrapArgs σ)
    (f : JsFun θ υ σ ε α) (hf : isWrapped f = false) (thisArg : θ) (callArgs : List υ)
    (c : Collector) (s : σ) :
    (∃ p c' s', (wrapWithTiming perfNow cfg f).run thisArg callArgs c s =
        (JsOutcome.promise p, c', s'))
    ∧ (∀ (v : α) (c' : Collector) (s' : σ),
        f.run thisArg callArgs c ((cfg.now.getD perfNow) s).2 = (JsOutcome.sync v, c', s') →
        ((wrapWithTiming perfNow cfg f).run thisArg callArgs c s).1 =
            JsOutcome.promise (Except.ok v)
          ∧ (JsOutcome.promise (Except.ok v) : JsOutcome ε α) ≠ JsOutcome.sync v) := by
  have hrun : ∀ ta ca c0 s0, (wrapWithTiming perfNow cfg f).run ta ca c0 s0 =
      let r := callTimed perfNow
        { extensionPath := cfg.extensionPath, surface := cfg.surface, name := cfg.name
          now := cfg.now, fn := f.run, thisArg := ta, callArgs := ca } c0 s0
      (JsOutcome.promise r.1, r.2.1, r.2.2) := by
    intro ta ca c0 s0
    have hm : f.wrappedMarker = false := hf
    simp [wrapWithTiming, isWrapped, hm]
  constructor
  · exact ⟨_, _, _, hrun thisArg callArgs c s⟩
  · intro v c' s' hsync
    rcases hns : (cfg.now.getD perfNow) s with ⟨t1, s1⟩
    have hs1 : ((cfg.now.getD perfNow) s).2 = s1 := by rw [hns]
    rw [hs1] at hsync
    constructor
    · rw [hrun thisArg callArgs c s]
      simp only [callTimed, hns, hsync, awaitOutcome]
    · simp

/-- A one-value clock over a trivial world. -/
def unitClock : Clock Unit := fun s => (0, s)

/-- A raw callable returning the plain value 42 synchronously. -/
def syncFn : JsFun Unit Unit Unit String Nat :=
  { run := fun _ _ c s => (JsOutcome.sync 42, c, s), wrappedMarker := false }

/-- A wrap configuration for the synchronous-return scenario. -/
def cfg0 : WrapArgs Unit :=
  { extensionPath := "a.ts", surface := .event, name := "turn_start", now := none }

/-- Witness for C10: wrapping the synchronous callable and invoking it
yields a promise settling to 42, not the raw 42. -/
theorem wrapped_call_returns_promise_witness :
    ((wrapWithTiming unitClock cfg0 syncFn).run () [] (createCollector 10 none) ()).1 =
      JsOutcome.promise (Except.ok 42) :=
  ((wrapped_call_returns_promise unitClock cfg0 syncFn rfl () [] (createCollector 10 none) ()).2
    42 (createCollector 10 none) () rfl).1

/-! ## C5: cardinality cap enforcement -/

/-- A collector capped at a single handler key. -/
def capCollector : Collector := createCollector 1 none

/-- The first sample, creating the only allowed handler key. -/
def sampleA : Sample :=
  { extensionPath := some "a.ts", surface := .event, name := "turn_start", ms := 5, ok := true }

/-- A second sample under a fresh handler key. -/
def sampleB : Sample :=
  { extensionPath := some "b.ts", surface := .event, name := "x", ms := 7, ok := true }

/-- The capped collector after the first sample. -/
def capC1 : Collector := recordInvocation capCollector sampleA

/-- C5: a sample with a new handler key arriving when the distinct-key
count has reached maxHandlers is dropped, incrementing droppedNewKeys and
leaving both aggregate maps (and everything else) unchanged; a sample
whose key already exists is still fully recorded into both maps even at
the cap; concretely, with maxHandlerKeys 1 and one existing key, the
new-key sample leaves the handler map at the single pre-existing
unchanged aggregate and bumps droppedNewKeys to 1. -/
theorem recordInvocation_cap_enforcement :
    (∀ (c : Collector) (s : Sample),
      lookupA c.handlerTotals
          (keyOf (normalizeExtensionPath c s.extensionPath) s.surface s.name) = none →
      c.handlerTotals.length ≥ c.maxHandlers →
      recordInvocation c s = { c with droppedNewKeys := c.droppedNewKeys + 1 })
    ∧ (∀ (c : Collector) (s : Sample) (row : HandlerAggregate),
      lookupA c.handlerTotals
          (keyOf (normalizeExtensionPath c s.extensionPath) s.surface s.name) = some row →
      (recordInvocation c s).droppedNewKeys = c.droppedNewKeys
      ∧ lookupA (recordInvocation c s).handlerTotals
            (keyOf (normalizeExtensionPath c s.extensionPath) s.surface s.name)
          = some { row with
              calls := row.calls + 1
              totalMs := row.totalMs + s.ms
              maxMs := max row.maxMs s.ms
              errorCount := if s.ok then row.errorCount else row.errorCount + 1 }
      ∧ (recordInvocation c s).extensionTotals =
          upsertAggregate c.extensionTotals (normalizeExtensionPath c s.extensionPath) s.ms s.ok)
    ∧ (recordInvocation capC1 sampleB = { capC1 with droppedNewKeys := 1 }
      ∧ capC1.handlerTotals.length = 1
      ∧ lookupA (recordInvocation capC1 sampleB).handlerTotals
            (keyOf "a.ts" .event "turn_start")
          = some { extensionPath := "a.ts", surface := .event, name := "turn_start"
                   calls := 1, totalMs := 5, maxMs := 5, errorCount := 0 }) := by
  refine ⟨?_, ?_, ?_⟩
  · intro c s h1 h2
    simp only [recordInvocation]
    rw [if_pos]
    exact ⟨by simp [h1], h2⟩
  · intro c s row h
    simp only [recordInvocation]
    rw [if_neg]
    · refine ⟨rfl, ?_, rfl⟩
      simp [h, lookupA_setA_self]
    · simp [h]
  · refine ⟨?_, ?_, ?_⟩ <;>
      norm_num +decide [capC1, capCollector, sampleA, sampleB, recordInvocation, createCollector,
        normalizeExtensionPath, keyOf, usep, upsertAggregate, lookupA, setA, Surface.str]

/-- Witness for C5: the drop clause applied to the concrete capped
collector and the new-key sample. -/
theorem recordInvocation_cap_enforcement_witness :
    recordInvocation capC1 sampleB = { capC1 with droppedNewKeys := capC1.droppedNewKeys + 1 } := by
  have h1 : lookupA capC1.handlerTotals
      (keyOf (normalizeExtensionPath capC1 sampleB.extensionPath) sampleB.surface sampleB.name)
      = none := by
    simp +decide [capC1, capCollector, sampleA, sampleB, recordInvocation, createCollector,
      normalizeExtensionPath, keyOf, usep, upsertAggregate, lookupA, setA, Surface.str]
  have h2 : capC1.handlerTotals.length ≥ capC1.maxHandlers := by
    simp +decide [capC1, capCollector, sampleA, sampleB, recordInvocation, createCollector,
      normalizeExtensionPath, keyOf, usep, upsertAggregate, lookupA, setA, Surface.str]
  exact recordInvocation_cap_enforcement.1 capC1 sampleB h1 h2

/-! ## C1: the shouldRecord gate never reaches the wrapped callables -/

/-- An event handler returning a promise of 1, not yet wrapped. -/
def evHandler : JsFun Unit Unit (List ℚ) String Nat :=
  { run := fun _ _ c s => (JsOutcome.promise (Except.ok 1), c, s), wrappedMarker := false }

/-- One extension registering one turn_start event handler. -/
def ext0 : Ext Unit Unit (List ℚ) String Nat :=
  { path := some "a.ts", handlers := some [("turn_start", [evHandler])]
    commands := none, tools := none }

/-- The runner instance carrying that extension. -/
def runner0 : Runner Unit Unit (List ℚ) String Nat := { extensions := [ext0] }

/-- An original bindCore that binds nothing further. -/
def origBind : BindFn Unit Unit (List ℚ) String Nat Unit := fun r cov => (r, cov, ())

/-- The unpatched prototype. -/
def proto0 : ProtoState Unit Unit (List ℚ) String Nat Unit :=
  { patchedMark := false, bindCore := origBind }

/-- The prototype after patching with a shouldRecord gate that always
answers false (recording toggled off). -/
def patchedProto : ProtoState Unit Unit (List ℚ) String Nat Unit :=
  (patchRunnerPrototype tickClock proto0 (some fun _ => false)).1

/-- C1: evaluating the patched system at the failing input - the patch was
given shouldRecord = false for every invocation, yet invoking the wrapped
turn_start handler once (clock ticks 3 and 7) still records a sample: the
handler aggregate map goes from empty to a one-call row and the extension
aggregate map gains the matching row, because wrapper.ts never declares or
consults the gate the patcher forwards. -/
theorem shouldRecord_gate_not_enforced :
    (createCollector 10000 none).handlerTotals = []
    ∧ lookupA (countsAfterBind patchedProto runner0 CoverageState.allMissing () []
          (createCollector 10000 none) [3, 7]).handlerTotals
        (keyOf "a.ts" Surface.event "turn_start")
      = some { extensionPath := "a.ts", surface := .event, name := "turn_start"
               calls := 1, totalMs := 4, maxMs := 4, errorCount := 0 }
    ∧ lookupA (countsAfterBind patchedProto runner0 CoverageState.allMissing () []
          (createCollector 10000 none) [3, 7]).extensionTotals "a.ts"
      = some { calls := 1, totalMs := 4, maxMs := 4, errorCount := 0 } := by
  refine ⟨rfl, ?_, ?_⟩ <;>
    norm_num +decide [countsAfterBind, patchedProto, patchRunnerPrototype, proto0, origBind,
      patchedBindCore, wrapExtension, coverageAfter, runner0, ext0, evHandler, invokeFns,
      extFns, wrapEventHandler, wrapWithTiming, isWrapped, callTimed, tickClock, awaitOutcome,
      settledOk, recordInvocation, normalizeExtensionPath, keyOf, usep, upsertAggregate,
      lookupA, setA, createCollector, Surface.str, CoverageState.allMissing]

/-! ## C2: coverage marks a present-but-empty collection instrumented -/

/-- An extension whose event-handler collection exists but is empty, with
the other two collections absent. -/
def extEmptyMaps : Ext Unit Unit (List ℚ) String Nat :=
  { path := some "a.ts", handlers := some [], commands := none, tools := none }

/-- The runner carrying only that extension. -/
def runnerEmpty : Runner Unit Unit (List ℚ) String Nat := { extensions := [extEmptyMaps] }

/-- C2 counterexample: after the patched bindCore runs over a runner whose
single extension has an existing but empty event-handler collection, the
events surface is reported instrumented - refuting the claim that an
extension whose collection exists but is empty does not by itself make the
surface instrumented. -/
theorem coverage_empty_collection_counterexample :
    extEmptyMaps.handlers = some []
    ∧ extEmptyMaps.commands = none
    ∧ extEmptyMaps.tools = none
    ∧ runnerEmpty.extensions = [extEmptyMaps]
    ∧ (patchedBindCore tickClock origBind runnerEmpty CoverageState.allMissing).2.1.events
        = Coverage.instrumented := by
  refine ⟨rfl, rfl, rfl, rfl, ?_⟩
  norm_num +decide [patchedBindCore, origBind, runnerEmpty, extEmptyMaps, coverageAfter,
    CoverageState.allMissing]

theorem covFold_events {θ υ σ ε α : Type} (exts : List (Ext θ υ σ ε α)) (acc : CoverageState) :
    (exts.foldl
      (fun cov e =>
        { events := if e.handlers.isSome then .instrumented else cov.events
          commands := if e.commands.isSome then .instrumented else cov.commands
          tools := if e.tools.isSome then .instrumented else cov.tools })
      acc).events = Coverage.instrumented
    ↔ (acc.events = Coverage.instrumented ∨ ∃ e ∈ exts, e.handlers.isSome) := by
  induction exts generalizing acc with
  | nil => simp
  | cons e rest ih =>
    simp only [List.foldl_cons, ih]
    by_cases h : e.handlers.isSome <;> simp [h]

theorem covFold_commands {θ υ σ ε α : Type} (exts : List (Ext θ υ σ ε α)) (acc : CoverageState) :
    (exts.foldl
      (fun cov e =>
        { events := if e.handlers.isSome then .instrumented else cov.events
          commands := if e.commands.isSome then .instrumented else cov.commands
          tools := if e.tools.isSome then .instrumented else cov.tools })
      acc).commands = Coverage.instrumented
    ↔ (acc.commands = Coverage.instrumented ∨ ∃ e ∈ exts, e.commands.isSome) := by
  induction exts generalizing acc with
  | nil => simp
  | cons e rest ih =>
    simp only [List.foldl_cons, ih]
    by_cases h : e.commands.isSome <;> simp [h]

theorem covFold_tools {θ υ σ ε α : Type} (exts : List (Ext θ υ σ ε α)) (acc : CoverageState) :
    (exts.foldl
      (fun cov e =>
        { events := if e.handlers.isSome then .instrumented else cov.events
          commands := if e.commands.isSome then .instrumented else cov.commands
          tools := if e.tools.isSome then .instrumented else cov.tools })
      acc).tools = Coverage.instrumented
    ↔ (acc.tools = Coverage.instrumented ∨ ∃ e ∈ exts, e.tools.isSome) := by
  induction exts generalizing acc with
  | nil => simp
  | cons e rest ih =>
    simp only [List.foldl_cons, ih]
    by_cases h : e.tools.isSome <;> simp [h]

/-- C2 amended: after the patched bindCore runs, a surface is marked
instrumented in the coverage cell if and only if the corresponding
collection exists (is a Map, possibly empty) on at least one registered
extension; a collection absent or structurally unrecognized on every
extension leaves that surface missing. -/
theorem patched_coverage_iff {θ υ σ ε α ρ : Type} (perfNow : Clock σ)
    (original : BindFn θ υ σ ε α ρ) (r : Runner θ υ σ ε α) (cov : CoverageState)
    (r1 : Runner θ υ σ ε α) (c1 : CoverageState) (res : ρ)
    (h : original r cov = (r1, c1, res)) :
    ((patchedBindCore perfNow original r cov).2.1.events = Coverage.instrumented
      ↔ ∃ e ∈ r1.extensions, e.handlers.isSome)
    ∧ ((patchedBindCore perfNow original r cov).2.1.commands = Coverage.instrumented
      ↔ ∃ e ∈ r1.extensions, e.commands.isSome)
    ∧ ((patchedBindCore perfNow original r cov).2.1.tools = Coverage.instrumented
      ↔ ∃ e ∈ r1.extensions, e.tools.isSome) := by
  simp only [patchedBindCore, h]
  refine ⟨?_, ?_, ?_⟩ <;>
    simp [coverageAfter, covFold_events, covFold_commands, covFold_tools,
      CoverageState.allMissing]

/-- Witness for C2 amended: at the empty-collection runner the events
surface is instrumented, via the present (empty) collection. -/
theorem patched_coverage_iff_witness :
    (patchedBindCore tickClock origBind runnerEmpty CoverageState.allMissing).2.1.events
      = Coverage.instrumented :=
  (patched_coverage_iff tickClock origBind runnerEmpty CoverageState.allMissing runnerEmpty
    CoverageState.allMissing () rfl).1.mpr
    ⟨extEmptyMaps, by simp [runnerEmpty], by simp [extEmptyMaps]⟩

/-! ## C4: idempotent patching -/

/-- C4: patching an unpatched prototype succeeds; patching a second time
detects the prototype marker, returns patched false with reason already
patched and all-missing coverage, leaves the prototype (hence every
wrapped callable) exactly as the first patch left it, and therefore the
handler call counts observed after bindCore plus one invocation of every
registered handler are identical after two patch calls and after one. -/
theorem patch_idempotent {θ υ σ ε α ρ : Type} (perfNow : Clock σ)
    (p : ProtoState θ υ σ ε α ρ) (sr sr' : Option (Unit → Bool))
    (h : p.patchedMark = false) :
    (patchRunnerPrototype perfNow p sr).2.patched = true
    ∧ (patchRunnerPrototype perfNow (patchRunnerPrototype perfNow p sr).1 sr').2 =
        { patched := false, reason := "already patched", coverage := CoverageState.allMissing }
    ∧ (patchRunnerPrototype perfNow (patchRunnerPrototype perfNow p sr).1 sr').1 =
        (patchRunnerPrototype perfNow p sr).1
    ∧ ∀ (r : Runner θ υ σ ε α) (cov : CoverageState) (ta : θ) (ca : List υ)
        (c : Collector) (s : σ),
        countsAfterBind (patchRunnerPrototype perfNow (patchRunnerPrototype perfNow p sr).1 sr').1
            r cov ta ca c s
          = countsAfterBind (patchRunnerPrototype perfNow p sr).1 r cov ta ca c s := by
  simp [patchRunnerPrototype, h]

/-- Witness for C4: the double patch of the concrete unpatched prototype
reports already patched with all-missing coverage. -/
theorem patch_idempotent_witness :
    (patchRunnerPrototype tickClock (patchRunnerPrototype tickClock proto0 none).1 none).2
      = { patched := false, reason := "already patched", coverage := CoverageState.allMissing } :=
  (patch_idempotent tickClock proto0 none none rfl).2.1

/-! ## C8: error path of the timing wrapper -/

/-- A callable rejecting with the error string boom. -/
def throwFn : JsFun Unit Unit (List ℚ) String Nat :=
  { run := fun _ _ c s => (JsOutcome.promise (Except.error "boom"), c, s), wrappedMarker := false }

/-- A wrap configuration under a handler key distinct from the one held by
the capped collector. -/
def cfgB : WrapArgs (List ℚ) :=
  { extensionPath := "b.ts", surface := .event, name := "x", now := none }

/-- C8 counterexample: at the cardinality cap, an invocation of a wrapped
callable that rejects with error boom under a new handler key still
rejects with exactly that error, but no aggregate for that handler exists
afterwards (the error sample is dropped, droppedNewKeys becomes 1, the
pre-existing aggregate is untouched) - refuting the claim that every such
invocation increments the handler errorCount and callCount by exactly 1. -/
theorem wrap_error_dropped_at_cap_counterexample :
    ((wrapWithTiming tickClock cfgB throwFn).run () [] capC1 [1, 1]).1 =
        JsOutcome.promise (Except.error "boom")
    ∧ lookupA ((wrapWithTiming tickClock cfgB throwFn).run () [] capC1 [1, 1]).2.1.handlerTotals
        (keyOf "b.ts" .event "x") = none
    ∧ ((wrapWithTiming tickClock cfgB throwFn).run () [] capC1 [1, 1]).2.1.droppedNewKeys = 1
    ∧ lookupA ((wrapWithTiming tickClock cfgB throwFn).run () [] capC1 [1, 1]).2.1.handlerTotals
        (keyOf "a.ts" .event "turn_start")
      = some { extensionPath := "a.ts", surface := .event, name := "turn_start"
               calls := 1, totalMs := 5, maxMs := 5, errorCount := 0 } := by
  refine ⟨?_, ?_, ?_, ?_⟩ <;>
    norm_num +decide [wrapWithTiming, isWrapped, throwFn, cfgB, callTimed, tickClock,
      awaitOutcome, settledOk, recordInvocation, normalizeExtensionPath, keyOf, usep,
      upsertAggregate, lookupA, setA, capC1, capCollector, sampleA, createCollector,
      Surface.str]

/-- C8 amended: when the awaited original rejects with error e and the
resulting sample is not dropped by the cardinality cap (its handler key
already exists or the cap is not reached), the wrapper's promise rejects
with exactly e, and that handler's aggregate has errorCount and callCount
each incremented by exactly 1 for that invocation; a capped-out new-key
error invocation instead increments droppedNewKeys only. -/
theorem wrap_error_path {θ υ σ ε α : Type} (perfNow : Clock σ) (cfg : WrapArgs σ)
    (f : JsFun θ υ σ ε α) (hf : isWrapped f = false) (ta : θ) (ca : List υ)
    (c : Collector) (s : σ) (t1 : ℚ) (s1 : σ) (outcome : JsOutcome ε α) (c1 : Collector)
    (s2 : σ) (t2 : ℚ) (s3 : σ) (e : ε)
    (h1 : cfg.now.getD perfNow s = (t1, s1))
    (h2 : f.run ta ca c s1 = (outcome, c1, s2))
    (h3 : cfg.now.getD perfNow s2 = (t2, s3))
    (he : awaitOutcome outcome = Except.error e)
    (hnd : ¬((lookupA c1.handlerTotals
        (keyOf (normalizeExtensionPath c1 (some cfg.extensionPath)) cfg.surface cfg.name)).isNone
      ∧ c1.handlerTotals.length ≥ c1.maxHandlers)) :
    ((wrapWithTiming perfNow cfg f).run ta ca c s).1 = JsOutcome.promise (Except.error e)
    ∧ lookupA ((wrapWithTiming perfNow cfg f).run ta ca c s).2.1.handlerTotals
        (keyOf (normalizeExtensionPath c1 (some cfg.extensionPath)) cfg.surface cfg.name)
      = some
        (let row := (lookupA c1.handlerTotals
            (keyOf (normalizeExtensionPath c1 (some cfg.extensionPath)) cfg.surface
              cfg.name)).getD
          { extensionPath := normalizeExtensionPath c1 (some cfg.extensionPath)
            surface := cfg.surface, name := cfg.name
            calls := 0, totalMs := 0, maxMs := 0, errorCount := 0 }
        { row with
          calls := row.calls + 1
          totalMs := row.totalMs + max 0 (t2 - t1)
          maxMs := max row.maxMs (max 0 (t2 - t1))
          errorCount := row.errorCount + 1 })
    ∧ ((wrapWithTiming perfNow cfg f).run ta ca c s).2.1.droppedNewKeys = c1.droppedNewKeys := by
  have hm : f.wrappedMarker = false := hf
  have hrun : (wrapWithTiming perfNow cfg f).run ta ca c s =
      let r := callTimed perfNow
        { extensionPath := cfg.extensionPath, surface := cfg.surface, name := cfg.name
          now := cfg.now, fn := f.run, thisArg := ta, callArgs := ca } c s
      (JsOutcome.promise r.1, r.2.1, r.2.2) := by
    simp [wrapWithTiming, isWrapped, hm]
  have hct : callTimed perfNow
      { extensionPath := cfg.extensionPath, surface := cfg.surface, name := cfg.name
        now := cfg.now, fn := f.run, thisArg := ta, callArgs := ca } c s =
      (Except.error e,
       recordInvocation c1
         { extensionPath := some cfg.extensionPath, surface := cfg.surface, name := cfg.name
           ms := max 0 (t2 - t1), ok := false },
       s3) := by
    simp only [callTimed, h1, h2, h3, he, settledOk]
  have hrec : recordInvocation c1
      { extensionPath := some cfg.extensionPath, surface := cfg.surface, name := cfg.name
        ms := max 0 (t2 - t1), ok := false } =
      { c1 with
        extensionTotals := upsertAggregate c1.extensionTotals
          (normalizeExtensionPath c1 (some cfg.extensionPath)) (max 0 (t2 - t1)) false
        handlerTotals := setA c1.handlerTotals
          (keyOf (normalizeExtensionPath c1 (some cfg.extensionPath)) cfg.surface cfg.name)
          (let row := (lookupA c1.handlerTotals
              (keyOf (normalizeExtensionPath c1 (some cfg.extensionPath)) cfg.surface
                cfg.name)).getD
            { extensionPath := normalizeExtensionPath c1 (some cfg.extensionPath)
              surface := cfg.surface, name := cfg.name
              calls := 0, totalMs := 0, maxMs := 0, errorCount := 0 }
          { row with
            calls := row.calls + 1
            totalMs := row.totalMs + max 0 (t2 - t1)
            maxMs := max row.maxMs (max 0 (t2 - t1))
            errorCount := row.errorCount + 1 }) } := by
    simp only [recordInvocation]
    rw [if_neg hnd]
    rfl
  refine ⟨?_, ?_, ?_⟩
  · rw [hrun]
    simp [hct]
  · rw [hrun]
    simp only [hct, hrec]
    simp [lookupA_setA_self]
  · rw [hrun]
    simp [hct, hrec]

/-- Witness for C8 amended: on an uncapped fresh collector the rejected
invocation records callCount 1 and errorCount 1 under its handler key and
rejects with the original error. -/
theorem wrap_error_path_witness :
    ((wrapWithTiming tickClock cfgB throwFn).run () [] (createCollector 10 none) [1, 1]).1 =
        JsOutcome.promise (Except.error "boom")
    ∧ lookupA ((wrapWithTiming tickClock cfgB throwFn).run () [] (createCollector 10 none)
          [1, 1]).2.1.handlerTotals
        (keyOf (normalizeExtensionPath (createCollector 10 none) (some "b.ts")) .event "x")
      = some { extensionPath := normalizeExtensionPath (createCollector 10 none) (some "b.ts")
               surface := .event, name := "x"
               calls := 1, totalMs := 0 + max 0 (1 - 1), maxMs := max 0 (max 0 (1 - 1))
               errorCount := 1 } := by
  have h := wrap_error_path tickClock cfgB throwFn rfl () [] (createCollector 10 none) [1, 1]
    1 [1] (JsOutcome.promise (Except.error "boom")) (createCollector 10 none) [1] 1 [] "boom"
    rfl rfl rfl rfl (by simp +decide [createCollector, lookupA])
  exact ⟨h.1, h.2.1⟩

/-! ## C6: the collector consistency invariant

The composite handler key is the U+001F join of its three components, so
two distinct component triples can collide when a component itself
contains U+001F; the invariant therefore holds for collectors whose
recorded identities and operation names are separator-free, and fails in
general (see the counterexample). -/

/-- The key separator character. -/
def sepChar : Char := Char.ofNat 31

/-- A string not containing the key separator. -/
def sepFree (s : String) : Prop := sepChar ∉ s.data

instance (s : String) : Decidable (sepFree s) := by
  unfold sepFree
  infer_instance

/-- Sum of one aggregate field over the handler rows stored under a given
extension identity. -/
def sumOf {M : Type} [AddCommMonoid M] (f : HandlerAggregate → M)
    (hs : List (String × HandlerAggregate)) (e : String) : M :=
  ((hs.filter fun kv => kv.2.extensionPath == e).map fun kv => f kv.2).sum

/-- The consistency invariant of the claim: every per-extension aggregate
equals the field-wise sum of the per-handler aggregates sharing that
extension identity. -/
def consistent (c : Collector) : Prop :=
  ∀ kv ∈ c.extensionTotals,
    kv.2.calls = sumOf HandlerAggregate.calls c.handlerTotals kv.1
    ∧ kv.2.totalMs = sumOf HandlerAggregate.totalMs c.handlerTotals kv.1
    ∧ kv.2.errorCount = sumOf HandlerAggregate.errorCount c.handlerTotals kv.1

/-- Structural well-formedness maintained by the collector operations:
distinct keys in both maps, every handler row keyed by the U+001F join of
its stored separator-free components, and every handler row's extension
present in the extension map. -/
def wfCollector (c : Collector) : Prop :=
  (c.extensionTotals.map Prod.fst).Nodup
  ∧ (c.handlerTotals.map Prod.fst).Nodup
  ∧ ∀ kv ∈ c.handlerTotals,
      kv.1 = keyOf kv.2.extensionPath kv.2.surface kv.2.name
      ∧ sepFree kv.2.extensionPath ∧ sepFree kv.2.name
      ∧ (lookupA c.extensionTotals kv.2.extensionPath).isSome

/-- The collectors reachable through the collector interface when every
recorded sample's normalized extension identity and operation name are
separator-free. -/
inductive ReachableSepFree : Collector → Prop where
  | created (maxHandlers : Nat) (unknownExtensionKey : Option String) :
      ReachableSepFree (createCollector maxHandlers unknownExtensionKey)
  | recorded (c : Collector) (s : Sample) :
      ReachableSepFree c →
      sepFree (normalizeExtensionPath c s.extensionPath) →
      sepFree s.name →
      ReachableSepFree (recordInvocation c s)
  | cleared (c : Collector) :
      ReachableSepFree c → ReachableSepFree (resetCollector c)

theorem lookupA_some_mem {A : Type} {m : List (String × A)} {k : String} {v : A}
    (h : lookupA m k = some v) : (k, v) ∈ m := by
  induction m with
  | nil => simp [lookupA] at h
  | cons kv rest ih =>
    obtain ⟨k0, v0⟩ := kv
    by_cases h0 : k0 = k
    · subst h0
      simp [lookupA] at h
      simp [h]
    · simp [lookupA, h0] at h
      exact List.mem_cons_of_mem _ (ih h)

theorem lookupA_none_not_mem {A : Type} {m : List (String × A)} {k : String}
    (h : lookupA m k = none) : k ∉ m.map Prod.fst := by
  induction m with
  | nil => simp
  | cons kv rest ih =>
    obtain ⟨k0, v0⟩ := kv
    by_cases h0 : k0 = k
    · subst h0
      simp [lookupA] at h
    · simp [lookupA, h0] at h
      simp only [List.map_cons, List.mem_cons]
      push_neg
      exact ⟨fun he => h0 he.symm, ih h⟩

theorem lookupA_decomp {A : Type} {m : List (String × A)} {k : String} {v : A}
    (h : lookupA m k = some v) :
    ∃ m1 m2, m = m1 ++ (k, v) :: m2 ∧ k ∉ m1.map Prod.fst
      ∧ ∀ w, setA m k w = m1 ++ (k, w) :: m2 := by
  induction m with
  | nil => simp [lookupA] at h
  | cons kv rest ih =>
    obtain ⟨k0, v0⟩ := kv
    by_cases h0 : k0 = k
    · subst h0
      simp [lookupA] at h
      subst h
      exact ⟨[], rest, rfl, by simp, fun w => by simp [setA]⟩
    · simp [lookupA, h0] at h
      obtain ⟨m1, m2, hm, hk, hset⟩ := ih h
      refine ⟨(k0, v0) :: m1, m2, by simp [hm], ?_, fun w => by simp [setA, h0, hset w]⟩
      simp only [List.map_cons, List.mem_cons]
      push_neg
      exact ⟨fun he => h0 he.symm, hk⟩

theorem setA_of_none {A : Type} {m : List (String × A)} {k : String}
    (h : lookupA m k = none) (v : A) : setA m k v = m ++ [(k, v)] := by
  induction m with
  | nil => simp [setA]
  | cons kv rest ih =>
    obtain ⟨k0, v0⟩ := kv
    by_cases h0 : k0 = k
    · subst h0
      simp [lookupA] at h
    · simp [lookupA, h0] at h
      simp [setA, h0, ih h]

theorem sumOf_nil {M : Type} [AddCommMonoid M] (f : HandlerAggregate → M) (e : String) :
    sumOf f [] e = 0 := rfl

theorem sumOf_append {M : Type} [AddCommMonoid M] (f : HandlerAggregate → M)
    (xs ys : List (String × HandlerAggregate)) (e : String) :
    sumOf f (xs ++ ys) e = sumOf f xs e + sumOf f ys e := by
  simp [sumOf, List.filter_append]

theorem sumOf_cons {M : Type} [AddCommMonoid M] (f : HandlerAggregate → M)
    (k : String) (r : HandlerAggregate) (t : List (String × HandlerAggregate)) (e : String) :
    sumOf f ((k, r) :: t) e =
      (if r.extensionPath = e then f r else 0) + sumOf f t e := by
  by_cases h : r.extensionPath = e <;> simp [sumOf, List.filter_cons, h]

theorem sumOf_eq_zero {M : Type} [AddCommMonoid M] (f : HandlerAggregate → M)
    {hs : List (String × HandlerAggregate)} {e : String}
    (h : ∀ kv ∈ hs, kv.2.extensionPath ≠ e) : sumOf f hs e = 0 := by
  induction hs with
  | nil => rfl
  | cons kv t ih =>
    obtain ⟨k, r⟩ := kv
    rw [sumOf_cons]
    rw [if_neg (h (k, r) (List.mem_cons_self _ _)), ih fun x hx => h x (List.mem_cons_of_mem _ hx)]
    simp

theorem sep_notin_surface (s : Surface) : sepChar ∉ s.str.data := by
  cases s <;> decide

theorem surface_str_inj {s s' : Surface} (h : s.str.data = s'.str.data) : s = s' := by
  cases s <;> cases s' <;> first | rfl | (exfalso; revert h; decide)

theorem string_eq_of_data {a b : String} (h : a.data = b.data) : a = b := by
  cases a
  cases b
  simp at h
  rw [h]

theorem sep_split : ∀ (l1 l2 r1 r2 : List Char), sepChar ∉ l1 → sepChar ∉ l2 →
    l1 ++ sepChar :: r1 = l2 ++ sepChar :: r2 → l1 = l2 ∧ r1 = r2 := by
  intro l1
  induction l1 with
  | nil =>
    intro l2 r1 r2 h1 h2 he
    cases l2 with
    | nil =>
      simp at he
      exact ⟨rfl, he⟩
    | cons c t =>
      simp at he
      rw [he.1] at h2
      simp at h2
  | cons c t ih =>
    intro l2 r1 r2 h1 h2 he
    cases l2 with
    | nil =>
      simp at he
      rw [← he.1] at h1
      simp at h1
    | cons c' t' =>
      simp at he
      obtain ⟨hc, ht⟩ := he
      have h1' : sepChar ∉ t := fun hx => h1 (List.mem_cons_of_mem _ hx)
      have h2' : sepChar ∉ t' := fun hx => h2 (List.mem_cons_of_mem _ hx)
      obtain ⟨ha, hb⟩ := ih t' r1 r2 h1' h2' ht
      exact ⟨by rw [hc, ha], hb⟩

theorem keyOf_data (e : String) (s : Surface) (n : String) :
    (keyOf e s n).data = e.data ++ sepChar :: (s.str.data ++ sepChar :: n.data) := by
  simp [keyOf, usep, sepChar]

theorem keyOf_inj {e n e' n' : String} {s s' : Surface}
    (he : sepFree e) (hn : sepFree n) (he' : sepFree e') (hn' : sepFree n')
    (h : keyOf e s n = keyOf e' s' n') : e = e' ∧ s = s' ∧ n = n' := by
  have hd := congrArg String.data h
  rw [keyOf_data, keyOf_data] at hd
  obtain ⟨h1, h2⟩ := sep_split e.data e'.data _ _ he he' hd
  obtain ⟨h3, h4⟩ := sep_split s.str.data s'.str.data _ _
    (sep_notin_surface s) (sep_notin_surface s') h2
  exact ⟨string_eq_of_data h1, surface_str_inj h3, string_eq_of_data h4⟩

/-- The aggregate update recordInvocation applies to an existing or fresh
handler row. -/
def bumpRow (row : HandlerAggregate) (ms : ℚ) (ok : Bool) : HandlerAggregate :=
  { row with
    calls := row.calls + 1
    totalMs := row.totalMs + ms
    maxMs := max row.maxMs ms
    errorCount := if ok then row.errorCount else row.errorCount + 1 }

/-- The fresh handler row recordInvocation starts from for a new key. -/
def freshRow (e : String) (sf : Surface) (n : String) : HandlerAggregate :=
  { extensionPath := e, surface := sf, name := n
    calls := 0, totalMs := 0, maxMs := 0, errorCount := 0 }

/-- The aggregate update upsertAggregate applies. -/
def bumpAgg (a : Aggregate) (ms : ℚ) (ok : Bool) : Aggregate :=
  { calls := a.calls + 1
    totalMs := a.totalMs + ms
    maxMs := max a.maxMs ms
    errorCount := if ok then a.errorCount else a.errorCount + 1 }

theorem upsertAggregate_eq (target : List (String × Aggregate)) (k : String) (ms : ℚ)
    (ok : Bool) :
    upsertAggregate target k ms ok =
      setA target k
        (bumpAgg ((lookupA target k).getD { calls := 0, totalMs := 0, maxMs := 0, errorCount := 0 })
          ms ok) := rfl

theorem record_drop_eq (c : Collector) (s : Sample)
    (hdrop : (lookupA c.handlerTotals
        (keyOf (normalizeExtensionPath c s.extensionPath) s.surface s.name)).isNone
      ∧ c.handlerTotals.length ≥ c.maxHandlers) :
    recordInvocation c s = { c with droppedNewKeys := c.droppedNewKeys + 1 } := by
  simp only [recordInvocation]
  rw [if_pos hdrop]

theorem record_keep_eq (c : Collector) (s : Sample)
    (hnd : ¬((lookupA c.handlerTotals
        (keyOf (normalizeExtensionPath c s.extensionPath) s.surface s.name)).isNone
      ∧ c.handlerTotals.length ≥ c.maxHandlers)) :
    recordInvocation c s =
      { c with
        extensionTotals :=
          upsertAggregate c.extensionTotals (normalizeExtensionPath c s.extensionPath) s.ms s.ok
        handlerTotals :=
          setA c.handlerTotals
            (keyOf (normalizeExtensionPath c s.extensionPath) s.surface s.name)
            (bumpRow
              ((lookupA c.handlerTotals
                  (keyOf (normalizeExtensionPath c s.extensionPath) s.surface s.name)).getD
                (freshRow (normalizeExtensionPath c s.extensionPath) s.surface s.name))
              s.ms s.ok) } := by
  simp only [recordInvocation]
  rw [if_neg hnd]
  rfl

theorem record_preserves_wf_consistent (c : Collector) (s : Sample)
    (hwf : wfCollector c) (hcons : consistent c)
    (hes : sepFree (normalizeExtensionPath c s.extensionPath)) (hns : sepFree s.name) :
    wfCollector (recordInvocation c s) ∧ consistent (recordInvocation c s) := by
  obtain ⟨hndE, hndH, hcoh⟩ := hwf
  by_cases hdrop : (lookupA c.handlerTotals
      (keyOf (normalizeExtensionPath c s.extensionPath) s.surface s.name)).isNone
    ∧ c.handlerTotals.length ≥ c.maxHandlers
  · rw [record_drop_eq c s hdrop]
    exact ⟨⟨hndE, hndH, hcoh⟩, hcons⟩
  rw [record_keep_eq c s hdrop, upsertAggregate_eq]
  set ext := normalizeExtensionPath c s.extensionPath with hext
  set key := keyOf ext s.surface s.name with hkey
  cases hl : lookupA c.handlerTotals key with
  | some row =>
    simp only [hl, Option.getD_some]
    have hmem := lookupA_some_mem hl
    obtain ⟨hkeyeq, hrfe, hrfn, hpres⟩ := hcoh (key, row) hmem
    have hkk : keyOf ext s.surface s.name = keyOf row.extensionPath row.surface row.name := by
      rw [← hkey]
      exact hkeyeq
    obtain ⟨hpe, hpsf, hpn⟩ := keyOf_inj hes hns hrfe hrfn hkk
    have hpres' : (lookupA c.extensionTotals ext).isSome := by
      rw [hpe]
      exact hpres
    obtain ⟨a, ha⟩ := Option.isSome_iff_exists.mp hpres'
    simp only [ha, Option.getD_some]
    obtain ⟨m1, m2, hm, hk1, hsetH⟩ := lookupA_decomp hl
    obtain ⟨n1, n2, hn, hk2, hsetE⟩ := lookupA_decomp ha
    have hrowpath : (bumpRow row s.ms s.ok).extensionPath = row.extensionPath := rfl
    have hrowpath' : (bumpRow row s.ms s.ok).extensionPath = ext := by
      rw [hrowpath, ← hpe]
    have hextn2 : ext ∉ n2.map Prod.fst := by
      have h2 := hndE
      rw [hn] at h2
      simp only [List.map_append, List.map_cons] at h2
      exact (List.nodup_cons.mp (List.nodup_append.mp h2).2.1).1
    refine ⟨⟨?_, ?_, ?_⟩, ?_⟩
    · show ((setA c.extensionTotals ext (bumpAgg a s.ms s.ok)).map Prod.fst).Nodup
      have hkeys : (setA c.extensionTotals ext (bumpAgg a s.ms s.ok)).map Prod.fst =
          c.extensionTotals.map Prod.fst := by
        rw [hsetE (bumpAgg a s.ms s.ok), hn]
        simp
      rw [hkeys]
      exact hndE
    · show ((setA c.handlerTotals key (bumpRow row s.ms s.ok)).map Prod.fst).Nodup
      have hkeys : (setA c.handlerTotals key (bumpRow row s.ms s.ok)).map Prod.fst =
          c.handlerTotals.map Prod.fst := by
        rw [hsetH (bumpRow row s.ms s.ok), hm]
        simp
      rw [hkeys]
      exact hndH
    · intro kv hkv
      show kv.1 = keyOf kv.2.extensionPath kv.2.surface kv.2.name
        ∧ sepFree kv.2.extensionPath ∧ sepFree kv.2.name
        ∧ (lookupA (setA c.extensionTotals ext (bumpAgg a s.ms s.ok))
            kv.2.extensionPath).isSome
      have hkv' : kv ∈ m1 ++ (key, bumpRow row s.ms s.ok) :: m2 := by
        rw [← hsetH (bumpRow row s.ms s.ok)]
        exact hkv
      have hold : kv ∈ c.handlerTotals ∨ kv = (key, bumpRow row s.ms s.ok) := by
        rcases List.mem_append.mp hkv' with h1 | h2
        · exact Or.inl (by rw [hm]; exact List.mem_append_left _ h1)
        · rcases List.mem_cons.mp h2 with h3 | h4
          · exact Or.inr h3
          · exact Or.inl (by
              rw [hm]
              exact List.mem_append_right _ (List.mem_cons_of_mem _ h4))
      rcases hold with hold | hnew
      · obtain ⟨e1, e2, e3, e4⟩ := hcoh kv hold
        refine ⟨e1, e2, e3, ?_⟩
        by_cases hpq : kv.2.extensionPath = ext
        · rw [hpq, lookupA_setA_self]
          rfl
        · rw [lookupA_setA_ne _ _ _ _ hpq]
          exact e4
      · subst hnew
        refine ⟨hkeyeq, hrfe, hrfn, ?_⟩
        show (lookupA (setA c.extensionTotals ext (bumpAgg a s.ms s.ok))
            (bumpRow row s.ms s.ok).extensionPath).isSome
        rw [hrowpath', lookupA_setA_self]
        rfl
    · intro kv hkv
      show kv.2.calls =
          sumOf HandlerAggregate.calls (setA c.handlerTotals key (bumpRow row s.ms s.ok)) kv.1
        ∧ kv.2.totalMs =
          sumOf HandlerAggregate.totalMs (setA c.handlerTotals key (bumpRow row s.ms s.ok)) kv.1
        ∧ kv.2.errorCount =
          sumOf HandlerAggregate.errorCount (setA c.handlerTotals key (bumpRow row s.ms s.ok))
            kv.1
      have hkv' : kv ∈ n1 ++ (ext, bumpAgg a s.ms s.ok) :: n2 := by
        rw [← hsetE (bumpAgg a s.ms s.ok)]
        exact hkv
      have hcases : (kv ∈ c.extensionTotals ∧ kv.1 ≠ ext) ∨ kv = (ext, bumpAgg a s.ms s.ok) := by
        rcases List.mem_append.mp hkv' with h1 | h2
        · refine Or.inl ⟨by rw [hn]; exact List.mem_append_left _ h1, ?_⟩
          intro he
          exact hk2 (he ▸ List.mem_map_of_mem Prod.fst h1)
        · rcases List.mem_cons.mp h2 with h3 | h4
          · exact Or.inr h3
          · refine Or.inl ⟨by
              rw [hn]
              exact List.mem_append_right _ (List.mem_cons_of_mem _ h4), ?_⟩
            intro he
            exact hextn2 (he ▸ List.mem_map_of_mem Prod.fst h4)
      rcases hcases with ⟨hold, hne⟩ | hnew
      · have hrne : ¬(row.extensionPath = kv.1) := by
          rw [← hpe]
          exact fun hq => hne hq.symm
        have hrne' : ¬((bumpRow row s.ms s.ok).extensionPath = kv.1) := by
          rw [hrowpath]
          exact hrne
        have hsums : ∀ {M : Type} [AddCommMonoid M] (f : HandlerAggregate → M),
            sumOf f (setA c.handlerTotals key (bumpRow row s.ms s.ok)) kv.1 =
              sumOf f c.handlerTotals kv.1 := by
          intro M _ f
          rw [hsetH (bumpRow row s.ms s.ok), hm, sumOf_append, sumOf_append, sumOf_cons,
            sumOf_cons, if_neg hrne', if_neg hrne]
        obtain ⟨e1, e2, e3⟩ := hcons kv hold
        rw [hsums, hsums, hsums]
        exact ⟨e1, e2, e3⟩
      · subst hnew
        have hmemExt : (ext, a) ∈ c.extensionTotals := by
          rw [hn]
          exact List.mem_append_right _ (List.mem_cons_self _ _)
        obtain ⟨e1, e2, e3⟩ := hcons (ext, a) hmemExt
        have hnew' : ∀ {M : Type} [AddCommMonoid M] (f : HandlerAggregate → M),
            sumOf f (setA c.handlerTotals key (bumpRow row s.ms s.ok)) ext =
              sumOf f m1 ext + (f (bumpRow row s.ms s.ok) + sumOf f m2 ext) := by
          intro M _ f
          rw [hsetH (bumpRow row s.ms s.ok), sumOf_append, sumOf_cons, if_pos hrowpath']
        have hold' : ∀ {M : Type} [AddCommMonoid M] (f : HandlerAggregate → M),
            sumOf f c.handlerTotals ext =
              sumOf f m1 ext + (f row + sumOf f m2 ext) := by
          intro M _ f
          rw [hm, sumOf_append, sumOf_cons, if_pos hpe.symm]
        have f1 : a.calls = sumOf HandlerAggregate.calls c.handlerTotals ext := e1
        have f2 : a.totalMs = sumOf HandlerAggregate.totalMs c.handlerTotals ext := e2
        have f3 : a.errorCount = sumOf HandlerAggregate.errorCount c.handlerTotals ext := e3
        rw [hold'] at f1 f2 f3
        refine ⟨?_, ?_, ?_⟩
        · rw [hnew']
          show (bumpAgg a s.ms s.ok).calls = _
          simp only [bumpAgg, bumpRow]
          omega
        · rw [hnew']
          show (bumpAgg a s.ms s.ok).totalMs = _
          simp only [bumpAgg, bumpRow]
          linarith [f2]
        · rw [hnew']
          show (bumpAgg a s.ms s.ok).errorCount = _
          cases hok : s.ok <;> simp only [bumpAgg, bumpRow, hok] <;> simp <;> omega
  | none =>
    simp only [hl, Option.getD_none]
    have hH := setA_of_none hl (bumpRow (freshRow ext s.surface s.name) s.ms s.ok)
    have hknotin := lookupA_none_not_mem hl
    have hfreshpath : (bumpRow (freshRow ext s.surface s.name) s.ms s.ok).extensionPath = ext :=
      rfl
    have hcohnew : key = keyOf (bumpRow (freshRow ext s.surface s.name) s.ms s.ok).extensionPath
        (bumpRow (freshRow ext s.surface s.name) s.ms s.ok).surface
        (bumpRow (freshRow ext s.surface s.name) s.ms s.ok).name := hkey
    cases ha : lookupA c.extensionTotals ext with
    | some a =>
      simp only [ha, Option.getD_some]
      obtain ⟨n1, n2, hn, hk2, hsetE⟩ := lookupA_decomp ha
      have hextn2 : ext ∉ n2.map Prod.fst := by
        have h2 := hndE
        rw [hn] at h2
        simp only [List.map_append, List.map_cons] at h2
        exact (List.nodup_cons.mp (List.nodup_append.mp h2).2.1).1
      refine ⟨⟨?_, ?_, ?_⟩, ?_⟩
      · show ((setA c.extensionTotals ext (bumpAgg a s.ms s.ok)).map Prod.fst).Nodup
        have hkeys : (setA c.extensionTotals ext (bumpAgg a s.ms s.ok)).map Prod.fst =
            c.extensionTotals.map Prod.fst := by
          rw [hsetE (bumpAgg a s.ms s.ok), hn]
          simp
        rw [hkeys]
        exact hndE
      · show ((setA c.handlerTotals key
            (bumpRow (freshRow ext s.surface s.name) s.ms s.ok)).map Prod.fst).Nodup
        rw [hH]
        simp [List.nodup_append, hndH, hknotin]
      · intro kv hkv
        show kv.1 = keyOf kv.2.extensionPath kv.2.surface kv.2.name
          ∧ sepFree kv.2.extensionPath ∧ sepFree kv.2.name
          ∧ (lookupA (setA c.extensionTotals ext (bumpAgg a s.ms s.ok))
              kv.2.extensionPath).isSome
        rw [hH] at hkv
        rcases List.mem_append.mp hkv with hold | hnew
        · obtain ⟨e1, e2, e3, e4⟩ := hcoh kv hold
          refine ⟨e1, e2, e3, ?_⟩
          by_cases hpq : kv.2.extensionPath = ext
          · rw [hpq, lookupA_setA_self]
            rfl
          · rw [lookupA_setA_ne _ _ _ _ hpq]
            exact e4
        · have hkv2 : kv = (key, bumpRow (freshRow ext s.surface s.name) s.ms s.ok) := by
            simpa using hnew
          subst hkv2
          refine ⟨hcohnew, hes, hns, ?_⟩
          show (lookupA (setA c.extensionTotals ext (bumpAgg a s.ms s.ok))
              (bumpRow (freshRow ext s.surface s.name) s.ms s.ok).extensionPath).isSome
          rw [hfreshpath, lookupA_setA_self]
          rfl
      · intro kv hkv
        show kv.2.calls = sumOf HandlerAggregate.calls
              (setA c.handlerTotals key (bumpRow (freshRow ext s.surface s.name) s.ms s.ok)) kv.1
          ∧ kv.2.totalMs = sumOf HandlerAggregate.totalMs
              (setA c.handlerTotals key (bumpRow (freshRow ext s.surface s.name) s.ms s.ok)) kv.1
          ∧ kv.2.errorCount = sumOf HandlerAggregate.errorCount
              (setA c.handlerTotals key (bumpRow (freshRow ext s.surface s.name) s.ms s.ok)) kv.1
        have hkv' : kv ∈ n1 ++ (ext, bumpAgg a s.ms s.ok) :: n2 := by
          rw [← hsetE (bumpAgg a s.ms s.ok)]
          exact hkv
        have hcases : (kv ∈ c.extensionTotals ∧ kv.1 ≠ ext)
            ∨ kv = (ext, bumpAgg a s.ms s.ok) := by
          rcases List.mem_append.mp hkv' with h1 | h2
          · refine Or.inl ⟨by rw [hn]; exact List.mem_append_left _ h1, ?_⟩
            intro he
            exact hk2 (he ▸ List.mem_map_of_mem Prod.fst h1)
          · rcases List.mem_cons.mp h2 with h3 | h4
            · exact Or.inr h3
            · refine Or.inl ⟨by
                rw [hn]
                exact List.mem_append_right _ (List.mem_cons_of_mem _ h4), ?_⟩
              intro he
              exact hextn2 (he ▸ List.mem_map_of_mem Prod.fst h4)
        rcases hcases with ⟨hold, hne⟩ | hnew
        · have hfne : ¬((bumpRow (freshRow ext s.surface s.name) s.ms s.ok).extensionPath
              = kv.1) := by
            rw [hfreshpath]
            exact fun hq => hne hq.symm
          have hsums : ∀ {M : Type} [AddCommMonoid M] (f : HandlerAggregate → M),
              sumOf f (setA c.handlerTotals key
                  (bumpRow (freshRow ext s.surface s.name) s.ms s.ok)) kv.1 =
                sumOf f c.handlerTotals kv.1 := by
            intro M _ f
            rw [hH, sumOf_append, sumOf_cons, if_neg hfne, sumOf_nil]
            simp
          obtain ⟨e1, e2, e3⟩ := hcons kv hold
          rw [hsums, hsums, hsums]
          exact ⟨e1, e2, e3⟩
        · subst hnew
          have hmemExt : (ext, a) ∈ c.extensionTotals := by
            rw [hn]
            exact List.mem_append_right _ (List.mem_cons_self _ _)
          obtain ⟨e1, e2, e3⟩ := hcons (ext, a) hmemExt
          have hsums : ∀ {M : Type} [AddCommMonoid M] (f : HandlerAggregate → M),
              sumOf f (setA c.handlerTotals key
                  (bumpRow (freshRow ext s.surface s.name) s.ms s.ok)) ext =
                sumOf f c.handlerTotals ext +
                  f (bumpRow (freshRow ext s.surface s.name) s.ms s.ok) := by
            intro M _ f
            rw [hH, sumOf_append, sumOf_cons, if_pos hfreshpath, sumOf_nil]
            simp
          have f1 : a.calls = sumOf HandlerAggregate.calls c.handlerTotals ext := e1
          have f2 : a.totalMs = sumOf HandlerAggregate.totalMs c.handlerTotals ext := e2
          have f3 : a.errorCount = sumOf HandlerAggregate.errorCount c.handlerTotals ext := e3
          refine ⟨?_, ?_, ?_⟩
          · rw [hsums]
            show (bumpAgg a s.ms s.ok).calls = _
            simp only [bumpAgg, bumpRow, freshRow]
            omega
          · rw [hsums]
            show (bumpAgg a s.ms s.ok).totalMs = _
            simp only [bumpAgg, bumpRow, freshRow]
            linarith [f2]
          · rw [hsums]
            show (bumpAgg a s.ms s.ok).errorCount = _
            cases hok : s.ok <;> simp only [bumpAgg, bumpRow, freshRow, hok] <;> simp <;> omega
    | none =>
      simp only [ha, Option.getD_none]
      have hE := setA_of_none ha
        (bumpAgg { calls := 0, totalMs := 0, maxMs := 0, errorCount := 0 } s.ms s.ok)
      have hextnotin := lookupA_none_not_mem ha
      have hnorows : ∀ kv ∈ c.handlerTotals, kv.2.extensionPath ≠ ext := by
        intro kv hkv hpeq
        have := (hcoh kv hkv).2.2.2
        rw [hpeq, ha] at this
        simp at this
      refine ⟨⟨?_, ?_, ?_⟩, ?_⟩
      · show ((setA c.extensionTotals ext
            (bumpAgg { calls := 0, totalMs := 0, maxMs := 0, errorCount := 0 }
              s.ms s.ok)).map Prod.fst).Nodup
        rw [hE]
        simp [List.nodup_append, hndE, hextnotin]
      · show ((setA c.handlerTotals key
            (bumpRow (freshRow ext s.surface s.name) s.ms s.ok)).map Prod.fst).Nodup
        rw [hH]
        simp [List.nodup_append, hndH, hknotin]
      · intro kv hkv
        show kv.1 = keyOf kv.2.extensionPath kv.2.surface kv.2.name
          ∧ sepFree kv.2.extensionPath ∧ sepFree kv.2.name
          ∧ (lookupA (setA c.extensionTotals ext
              (bumpAgg { calls := 0, totalMs := 0, maxMs := 0, errorCount := 0 } s.ms s.ok))
              kv.2.extensionPath).isSome
        rw [hH] at hkv
        rcases List.mem_append.mp hkv with hold | hnew
        · obtain ⟨e1, e2, e3, e4⟩ := hcoh kv hold
          refine ⟨e1, e2, e3, ?_⟩
          by_cases hpq : kv.2.extensionPath = ext
          · rw [hpq, lookupA_setA_self]
            rfl
          · rw [lookupA_setA_ne _ _ _ _ hpq]
            exact e4
        · have hkv2 : kv = (key, bumpRow (freshRow ext s.surface s.name) s.ms s.ok) := by
            simpa using hnew
          subst hkv2
          refine ⟨hcohnew, hes, hns, ?_⟩
          show (lookupA (setA c.extensionTotals ext
              (bumpAgg { calls := 0, totalMs := 0, maxMs := 0, errorCount := 0 } s.ms s.ok))
              (bumpRow (freshRow ext s.surface s.name) s.ms s.ok).extensionPath).isSome
          rw [hfreshpath, lookupA_setA_self]
          rfl
      · intro kv hkv
        show kv.2.calls = sumOf HandlerAggregate.calls
              (setA c.handlerTotals key (bumpRow (freshRow ext s.surface s.name) s.ms s.ok)) kv.1
          ∧ kv.2.totalMs = sumOf HandlerAggregate.totalMs
              (setA c.handlerTotals key (bumpRow (freshRow ext s.surface s.name) s.ms s.ok)) kv.1
          ∧ kv.2.errorCount = sumOf HandlerAggregate.errorCount
              (setA c.handlerTotals key (bumpRow (freshRow ext s.surface s.name) s.ms s.ok)) kv.1
        have hkv' : kv ∈ c.extensionTotals ++
            [(ext, bumpAgg { calls := 0, totalMs := 0, maxMs := 0, errorCount := 0 }
              s.ms s.ok)] := by
          rw [← hE]
          exact hkv
        rcases List.mem_append.mp hkv' with hold | hnew
        · have hne : kv.1 ≠ ext := by
            intro he
            exact hextnotin (he ▸ List.mem_map_of_mem Prod.fst hold)
          have hfne : ¬((bumpRow (freshRow ext s.surface s.name) s.ms s.ok).extensionPath
              = kv.1) := by
            rw [hfreshpath]
            exact fun hq => hne hq.symm
          have hsums : ∀ {M : Type} [AddCommMonoid M] (f : HandlerAggregate → M),
              sumOf f (setA c.handlerTotals key
                  (bumpRow (freshRow ext s.surface s.name) s.ms s.ok)) kv.1 =
                sumOf f c.handlerTotals kv.1 := by
            intro M _ f
            rw [hH, sumOf_append, sumOf_cons, if_neg hfne, sumOf_nil]
            simp
          obtain ⟨e1, e2, e3⟩ := hcons kv hold
          rw [hsums, hsums, hsums]
          exact ⟨e1, e2, e3⟩
        · have hkv2 : kv = (ext,
              bumpAgg { calls := 0, totalMs := 0, maxMs := 0, errorCount := 0 } s.ms s.ok) := by
            simpa using hnew
          subst hkv2
          have hzero : ∀ {M : Type} [AddCommMonoid M] (f : HandlerAggregate → M),
              sumOf f c.handlerTotals ext = 0 :=
            fun f => sumOf_eq_zero f hnorows
          have hsums : ∀ {M : Type} [AddCommMonoid M] (f : HandlerAggregate → M),
              sumOf f (setA c.handlerTotals key
                  (bumpRow (freshRow ext s.surface s.name) s.ms s.ok)) ext =
                f (bumpRow (freshRow ext s.surface s.name) s.ms s.ok) := by
            intro M _ f
            rw [hH, sumOf_append, sumOf_cons, if_pos hfreshpath, sumOf_nil, hzero]
            simp
          refine ⟨?_, ?_, ?_⟩
          · rw [hsums]
            simp [bumpAgg, bumpRow, freshRow]
          · rw [hsums]
            simp [bumpAgg, bumpRow, freshRow]
          · rw [hsums]
            cases hok : s.ok <;> simp [bumpAgg, bumpRow, freshRow, hok]

theorem create_wf_consistent (mh : Nat) (uk : Option String) :
    wfCollector (createCollector mh uk) ∧ consistent (createCollector mh uk) := by
  constructor
  · refine ⟨?_, ?_, ?_⟩
    · simp [createCollector]
    · simp [createCollector]
    · intro kv hkv
      simp [createCollector] at hkv
  · intro kv hkv
    simp [createCollector] at hkv

theorem reset_wf_consistent (c : Collector) :
    wfCollector (resetCollector c) ∧ consistent (resetCollector c) := by
  constructor
  · refine ⟨?_, ?_, ?_⟩
    · simp [resetCollector]
    · simp [resetCollector]
    · intro kv hkv
      simp [resetCollector] at hkv
  · intro kv hkv
    simp [resetCollector] at hkv

theorem reachable_wf_consistent : ∀ c, ReachableSepFree c → wfCollector c ∧ consistent c := by
  intro c h
  induction h with
  | created mh uk => exact create_wf_consistent mh uk
  | recorded c0 s0 _ hse hsn ih => exact record_preserves_wf_consistent c0 s0 ih.1 ih.2 hse hsn
  | cleared c0 _ ih => exact reset_wf_consistent c0

/-- C6 amended: for every collector reachable through create,
recordInvocation (including its dropped-sample path) and reset, where each
recorded sample's normalized extension identity and operation name are free
of the U+001F key separator, every per-extension aggregate's totalDurationMs,
callCount and errorCount equal the corresponding sums over the per-handler
aggregates sharing that extension identity. -/
theorem collector_consistent_of_reachable (c : Collector) (h : ReachableSepFree c) :
    consistent c :=
  (reachable_wf_consistent c h).2

/-- Witness for C6 amended: the invariant instantiated at the concrete
collector that recorded one separator-free sample. -/
theorem collector_consistent_of_reachable_witness : consistent capC1 :=
  collector_consistent_of_reachable capC1
    (ReachableSepFree.recorded capCollector sampleA (ReachableSepFree.created 1 none)
      (by decide) (by decide))

/-- A sample whose operation name contains the U+001F key separator. -/
def sepSample1 : Sample :=
  { extensionPath := some "a", surface := .event, name := "x\x1Fevent\x1Fy", ms := 5, ok := true }

/-- A sample whose extension identity contains the key separator, chosen so
its composite key collides with the one of sepSample1. -/
def sepSample2 : Sample :=
  { extensionPath := some "a\x1Fevent\x1Fx", surface := .event, name := "y", ms := 7, ok := true }

/-- The collector after recording the two colliding samples. -/
def clashCollector : Collector :=
  recordInvocation (recordInvocation (createCollector 10 none) sepSample1) sepSample2

/-- C6 counterexample: recording two samples whose distinct component
triples produce the same composite key (their identities and names contain
the U+001F separator) leaves the per-extension aggregate of identity a at
totalMs 5 while the handler rows stored under identity a sum to totalMs 12,
so the consistency invariant is not preserved by recordInvocation in
general. -/
theorem collector_consistency_counterexample : ¬consistent clashCollector := by
  intro h
  have hm : ("a", ({ calls := 1, totalMs := 5, maxMs := 5, errorCount := 0 } : Aggregate))
      ∈ clashCollector.extensionTotals := by
    norm_num +decide [clashCollector, sepSample1, sepSample2, recordInvocation, createCollector,
      normalizeExtensionPath, keyOf, usep, upsertAggregate, lookupA, setA, Surface.str]
  have h2 := (h _ hm).2.1
  norm_num +decide [clashCollector, sepSample1, sepSample2, recordInvocation, createCollector,
    normalizeExtensionPath, keyOf, usep, upsertAggregate, lookupA, setA, Surface.str,
    sumOf] at h2

/-! ## C9: snapshot format -/

theorem joinWith_cons_cons (sep x y : String) (ys : List String) :
    joinWith sep (x :: y :: ys) = x ++ sep ++ joinWith sep (y :: ys) := rfl

theorem digitChar_ne_nl (n : Nat) : digitChar n ≠ '\n' := by
  unfold digitChar
  have h : n % 10 < 10 := Nat.mod_lt _ (by omega)
  revert h
  generalize n % 10 = k
  intro h
  interval_cases k <;> decide

theorem hexDigit_ne_nl (n : Nat) : hexDigit n ≠ '\n' := by
  unfold hexDigit
  have h : n % 16 < 16 := Nat.mod_lt _ (by omega)
  revert h
  generalize n % 16 = k
  intro h
  interval_cases k <;> decide

theorem natDigits_ne_nl (n : Nat) : '\n' ∉ natDigits n := by
  induction n using Nat.strong_induction_on with
  | _ n ih =>
    rw [natDigits]
    split
    next hlt =>
      intro hmem
      simp at hmem
      exact digitChar_ne_nl n hmem.symm
    next hlt =>
      intro hmem
      rw [List.mem_append] at hmem
      rcases hmem with h1 | h2
      · exact ih (n / 10) (Nat.div_lt_self (by omega) (by omega)) h1
      · simp at h2
        exact digitChar_ne_nl (n % 10) h2.symm

theorem intRepr_ne_nl (i : Int) : '\n' ∉ (intRepr i).data := by
  unfold intRepr
  split
  · intro hmem
    rw [String.data_append] at hmem
    rcases List.mem_append.mp hmem with h1 | h2
    · exact absurd h1 (by decide)
    · exact natDigits_ne_nl _ h2
  · exact natDigits_ne_nl _

theorem escapeChar_ne_nl (c : Char) : '\n' ∉ escapeChar c := by
  by_cases h1 : c = Char.ofNat 34
  · subst h1; decide
  by_cases h2 : c = Char.ofNat 92
  · subst h2; decide
  by_cases h3 : c = Char.ofNat 8
  · subst h3; decide
  by_cases h4 : c = Char.ofNat 9
  · subst h4; decide
  by_cases h5 : c = Char.ofNat 10
  · subst h5; decide
  by_cases h6 : c = Char.ofNat 12
  · subst h6; decide
  by_cases h7 : c = Char.ofNat 13
  · subst h7; decide
  by_cases h8 : c.toNat < 32
  · unfold escapeChar
    rw [if_neg h1, if_neg h2, if_neg h3, if_neg h4, if_neg h5, if_neg h6, if_neg h7, if_pos h8]
    intro hmem
    rcases List.mem_cons.mp hmem with h | hmem1
    · exact absurd h (by decide)
    rcases List.mem_cons.mp hmem1 with h | hmem2
    · exact absurd h (by decide)
    unfold hex4 at hmem2
    rcases List.mem_cons.mp hmem2 with h | hmem3
    · exact hexDigit_ne_nl _ h.symm
    rcases List.mem_cons.mp hmem3 with h | hmem4
    · exact hexDigit_ne_nl _ h.symm
    rcases List.mem_cons.mp hmem4 with h | hmem5
    · exact hexDigit_ne_nl _ h.symm
    rcases List.mem_cons.mp hmem5 with h | hmem6
    · exact hexDigit_ne_nl _ h.symm
    · exact absurd hmem6 (by simp)
  · unfold escapeChar
    rw [if_neg h1, if_neg h2, if_neg h3, if_neg h4, if_neg h5, if_neg h6, if_neg h7, if_neg h8]
    intro hmem
    simp at hmem
    exact h5 (by rw [← hmem])

theorem quoteStr_ne_nl (s : String) : '\n' ∉ (quoteStr s).data := by
  unfold quoteStr
  intro hmem
  rcases List.mem_cons.mp hmem with h | hmem'
  · exact absurd h (by decide)
  rcases List.mem_append.mp hmem' with h1 | h2
  · obtain ⟨l, hl, hin⟩ := List.mem_flatten.mp h1
    obtain ⟨ch, hch, hrfl⟩ := List.mem_map.mp hl
    rw [← hrfl] at hin
    exact escapeChar_ne_nl ch hin
  · exact absurd h2 (by decide)

theorem jprim_repr_ne_nl (p : JPrim) : '\n' ∉ (JPrim.repr p).data := by
  cases p with
  | null => decide
  | jbool b => cases b <;> decide
  | num i => exact intRepr_ne_nl i
  | str s => exact quoteStr_ne_nl s

theorem joinWith_ne_nl (sep : String) (hsep : '\n' ∉ sep.data) :
    ∀ (l : List String), (∀ x ∈ l, '\n' ∉ x.data) → '\n' ∉ (joinWith sep l).data := by
  intro l
  induction l with
  | nil =>
    intro _
    simp [joinWith]
  | cons x xs ih =>
    intro h
    cases xs with
    | nil => exact h x (List.mem_cons_self _ _)
    | cons y ys =>
      rw [joinWith_cons_cons]
      intro hmem
      rw [String.data_append, String.data_append] at hmem
      rcases List.mem_append.mp hmem with hmem1 | hmem2
      · rcases List.mem_append.mp hmem1 with ha | hb
        · exact h x (List.mem_cons_self _ _) ha
        · exact hsep hb
      · exact ih (fun z hz => h z (List.mem_cons_of_mem _ hz)) hmem2

theorem jval_repr_ne_nl (v : JVal) : '\n' ∉ (JVal.repr v).data := by
  cases v with
  | prim p => exact jprim_repr_ne_nl p
  | obj fields =>
    show '\n' ∉ ("\x7b" ++ joinWith ","
      (fields.map fun kv => quoteStr kv.1 ++ ":" ++ JPrim.repr kv.2) ++ "\x7d").data
    intro hmem
    rw [String.data_append, String.data_append] at hmem
    rcases List.mem_append.mp hmem with hmem1 | h2
    · rcases List.mem_append.mp hmem1 with ha | hb
      · exact absurd ha (by decide)
      · refine joinWith_ne_nl "," (by decide) _ ?_ hb
        intro x hx
        obtain ⟨kv, hkv, hrfl⟩ := List.mem_map.mp hx
        rw [← hrfl]
        intro hin
        rw [String.data_append, String.data_append] at hin
        rcases List.mem_append.mp hin with hc | hd
        · rcases List.mem_append.mp hc with he | hf
          · exact quoteStr_ne_nl kv.1 he
          · exact absurd hf (by decide)
        · exact jprim_repr_ne_nl kv.2 hd
    · exact absurd h2 (by decide)

theorem recordRepr_ne_nl (fields : List (String × JVal)) : '\n' ∉ (recordRepr fields).data := by
  unfold recordRepr
  intro hmem
  rw [String.data_append, String.data_append] at hmem
  rcases List.mem_append.mp hmem with hmem1 | h2
  · rcases List.mem_append.mp hmem1 with ha | hb
    · exact absurd ha (by decide)
    · refine joinWith_ne_nl "," (by decide) _ ?_ hb
      intro x hx
      obtain ⟨kv, hkv, hrfl⟩ := List.mem_map.mp hx
      rw [← hrfl]
      intro hin
      rw [String.data_append, String.data_append] at hin
      rcases List.mem_append.mp hin with hc | hd
      · rcases List.mem_append.mp hc with he | hf
        · exact quoteStr_ne_nl kv.1 he
        · exact absurd hf (by decide)
      · exact jval_repr_ne_nl kv.2 hd
  · exact absurd h2 (by decide)

theorem splitNL_ne_nil (l : List Char) : splitNL l ≠ [] := by
  cases l with
  | nil => simp [splitNL]
  | cons c rest =>
    cases hs : splitNL rest with
    | nil => simp [splitNL, hs]
    | cons g gs =>
      simp only [splitNL, hs]
      split <;> simp

theorem splitNL_append : ∀ (l rest : List Char), '\n' ∉ l →
    splitNL (l ++ '\n' :: rest) = l :: splitNL rest := by
  intro l
  induction l with
  | nil =>
    intro rest _
    simp only [List.nil_append, splitNL]
    cases hs : splitNL rest with
    | nil => exact absurd hs (splitNL_ne_nil rest)
    | cons g gs => simp
  | cons c t ih =>
    intro rest h
    have hc : ¬(c = '\n') := by
      intro he
      rw [he] at h
      exact h (List.mem_cons_self _ _)
    have ht : '\n' ∉ t := fun hx => h (List.mem_cons_of_mem _ hx)
    simp only [List.cons_append, splitNL, List.append_eq]
    rw [ih rest ht]
    dsimp only
    rw [if_neg hc]

theorem ndjson_split : ∀ (lines : List String), lines ≠ [] →
    (∀ x ∈ lines, '\n' ∉ x.data) →
    splitNL ((joinWith "\n" lines ++ "\n").data) = lines.map String.data ++ [[]] := by
  intro lines
  induction lines with
  | nil =>
    intro hne _
    exact absurd rfl hne
  | cons x xs ih =>
    intro _ h
    cases xs with
    | nil =>
      show splitNL ((x ++ "\n").data) = [x.data, []]
      rw [String.data_append]
      rw [show ("\n" : String).data = ['\n'] from rfl]
      rw [splitNL_append x.data [] (h x (List.mem_cons_self _ _))]
      rfl
    | cons y ys =>
      rw [joinWith_cons_cons]
      have hx := h x (List.mem_cons_self _ _)
      have hrest : ∀ z ∈ y :: ys, '\n' ∉ z.data := fun z hz => h z (List.mem_cons_of_mem _ hz)
      have ihr := ih (by simp) hrest
      have hdata : ((x ++ "\n" ++ joinWith "\n" (y :: ys)) ++ "\n").data
          = x.data ++ '\n' :: ((joinWith "\n" (y :: ys) ++ "\n").data) := by
        simp [String.data_append]
      rw [hdata, splitNL_append _ _ hx, ihr]
      simp

theorem upsertField_append (fields : List (String × JVal)) (k : String) (v : JVal)
    (h : k ∉ fields.map Prod.fst) : upsertField fields k v = fields ++ [(k, v)] := by
  induction fields with
  | nil => simp [upsertField]
  | cons kv rest ih =>
    obtain ⟨k0, v0⟩ := kv
    simp only [List.map_cons, List.mem_cons] at h
    push_neg at h
    simp only [upsertField]
    rw [if_neg (fun he => h.1 he.symm), ih h.2]
    simp

theorem foldl_upsert (l : List (String × JVal)) :
    ∀ acc, (l.map Prod.fst).Nodup → (∀ k ∈ l.map Prod.fst, k ∉ acc.map Prod.fst) →
    l.foldl (fun a kv => upsertField a kv.1 kv.2) acc = acc ++ l := by
  induction l with
  | nil =>
    intro acc _ _
    simp
  | cons kv t ih =>
    intro acc hnd hdis
    obtain ⟨k, v⟩ := kv
    simp only [List.foldl_cons]
    have hk : k ∉ acc.map Prod.fst := hdis k (by simp)
    rw [upsertField_append acc k v hk]
    have hnd' : (t.map Prod.fst).Nodup := by
      simp only [List.map_cons] at hnd
      exact (List.nodup_cons.mp hnd).2
    have hkt : k ∉ t.map Prod.fst := by
      simp only [List.map_cons] at hnd
      exact (List.nodup_cons.mp hnd).1
    have hdis' : ∀ k' ∈ t.map Prod.fst, k' ∉ (acc ++ [(k, v)]).map Prod.fst := by
      intro k' hk'
      simp only [List.map_append, List.mem_append]
      push_neg
      constructor
      · exact hdis k' (by simp [hk'])
      · simp only [List.map_cons, List.map_nil, List.mem_singleton]
        intro he
        exact hkt (he ▸ hk')
    rw [ih (acc ++ [(k, v)]) hnd' hdis']
    simp

theorem objOf_nodup (l : List (String × JVal)) (h : (l.map Prod.fst).Nodup) : objOf l = l := by
  unfold objOf
  rw [foldl_upsert l [] h (by simp)]
  simp

theorem mkRecord_untagged (tag : String) (row : List (String × JVal))
    (hnot : "type" ∉ row.map Prod.fst) (hnd : (row.map Prod.fst).Nodup) :
    mkRecord tag row = ("type", JVal.prim (JPrim.str tag)) :: row := by
  unfold mkRecord
  apply objOf_nodup
  simp [hnot, hnd]

/-- C9 counterexample: a row that itself carries a type field overrides the
aggregate tag (JavaScript spread semantics: the later binding wins while
the first position is kept), so the written record is tagged x, not
aggregate; and duplicate row fields collapse to their last value, so the
record does not contain the exact fields passed in. -/
theorem snapshot_type_override_counterexample :
    mkRecord "aggregate" [("type", JVal.prim (JPrim.str "x"))]
      = [("type", JVal.prim (JPrim.str "x"))]
    ∧ ("x" : String) ≠ "aggregate"
    ∧ mkRecord "aggregate" [("a", JVal.prim (JPrim.num 1)), ("a", JVal.prim (JPrim.num 2))]
      = [("type", JVal.prim (JPrim.str "aggregate")), ("a", JVal.prim (JPrim.num 2))] := by
  refine ⟨?_, by decide, ?_⟩ <;> rfl

/-- C9 amended: saveSnapshot ensures the parent directory, writes the
joined record lines with a trailing newline to the pid-suffixed temporary
sibling path and renames it onto the final path (so afterwards the final
path holds the content and the temporary path does not exist); the content
read back line by line is exactly the rendered records in order: first the
session_meta record, then one aggregate record per input row; and provided
a record's supplied fields are duplicate-free and do not themselves define
a field named type, its record is the type tag followed by exactly the
supplied fields in input order. -/
theorem saveSnapshot_format (fs : FsState) (pid : Nat) (outputPath : String)
    (sessionMeta : List (String × JVal)) (aggregates : List (List (String × JVal))) :
    (saveSnapshot fs pid outputPath sessionMeta aggregates).files outputPath =
      some (joinWith "\n" ((snapshotRecords sessionMeta aggregates).map recordRepr) ++ "\n")
    ∧ (saveSnapshot fs pid outputPath sessionMeta aggregates).files
        (outputPath ++ ".tmp-" ++ natRepr pid) = none
    ∧ splitNL ((joinWith "\n" ((snapshotRecords sessionMeta aggregates).map recordRepr)
          ++ "\n").data)
      = ((snapshotRecords sessionMeta aggregates).map recordRepr).map String.data ++ [[]]
    ∧ (snapshotRecords sessionMeta aggregates)
      = mkRecord "session_meta" sessionMeta :: aggregates.map (mkRecord "aggregate")
    ∧ (("type" ∉ sessionMeta.map Prod.fst ∧ (sessionMeta.map Prod.fst).Nodup) →
        mkRecord "session_meta" sessionMeta
          = ("type", JVal.prim (JPrim.str "session_meta")) :: sessionMeta)
    ∧ (∀ row ∈ aggregates, ("type" ∉ row.map Prod.fst ∧ (row.map Prod.fst).Nodup) →
        mkRecord "aggregate" row = ("type", JVal.prim (JPrim.str "aggregate")) :: row) := by
  have htmp : ¬(outputPath ++ ".tmp-" ++ natRepr pid = outputPath) := by
    intro he
    have hlen : (outputPath ++ ".tmp-" ++ natRepr pid).data.length = outputPath.data.length := by
      rw [he]
    rw [String.data_append, String.data_append, List.length_append, List.length_append] at hlen
    have h5 : (".tmp-" : String).data.length = 5 := rfl
    omega
  refine ⟨?_, ?_, ?_, rfl, ?_, ?_⟩
  · simp [saveSnapshot, renameF, writeFileF]
  · simp [saveSnapshot, renameF, writeFileF, htmp]
  · apply ndjson_split
    · simp [snapshotRecords]
    · intro x hx
      obtain ⟨rec, hrec, hrfl⟩ := List.mem_map.mp hx
      rw [← hrfl]
      exact recordRepr_ne_nl rec
  · intro hh
    exact mkRecord_untagged "session_meta" sessionMeta hh.1 hh.2
  · intro row _ hh
    exact mkRecord_untagged "aggregate" row hh.1 hh.2

/-- Witness for C9 amended: the snapshot of one schemaVersion-1 session
meta record and one aggregate row, with the tags prepended to the exact
fields. -/
theorem saveSnapshot_format_witness :
    mkRecord "session_meta" [("schemaVersion", JVal.prim (JPrim.num 1))]
      = [("type", JVal.prim (JPrim.str "session_meta")),
         ("schemaVersion", JVal.prim (JPrim.num 1))]
    ∧ mkRecord "aggregate" [("calls", JVal.prim (JPrim.num 2))]
      = [("type", JVal.prim (JPrim.str "aggregate")), ("calls", JVal.prim (JPrim.num 2))] := by
  have h := saveSnapshot_format { dirs := [], files := fun _ => none } 1 "out.jsonl"
    [("schemaVersion", JVal.prim (JPrim.num 1))] [[("calls", JVal.prim (JPrim.num 2))]]
  exact ⟨h.2.2.2.2.1 (by decide),
    h.2.2.2.2.2 [("calls", JVal.prim (JPrim.num 2))] (by simp) (by decide)⟩

end ExtProf
